import Mathlib

set_option maxRecDepth 8000
set_option maxHeartbeats 1000000

/-!
Shallow embedding of the retrieval-and-normalization core of the bible_bot
repository (src/bot.py, with the citation regex shared by src/bot2.py),
together with proofs about the frozen claims.

Python strings are modelled as lists of characters (`Str`).  Python regular
expressions that the source applies to its data are modelled by executable
scanners with the same leftmost / greedy / non-overlapping semantics,
restricted to the character classes the source actually uses (ASCII digits
and whitespace, the Hebrew combining-mark block, the Polish letters named in
the source).  HTTP traffic is modelled by a response oracle mapping a URL and
an attempt number to an optional (status, body) pair, `none` standing for a
network-level exception.  Wall-clock instants are integers.
-/

namespace BibleBot

abbrev Str := List Char

/-- Whitespace as recognized by Python's default str.strip and by the regex
class backslash-s, restricted to ASCII (the repository only feeds it ASCII
whitespace). -/
def isSpaceC (c : Char) : Bool :=
  c = ' ' || c = '\t' || c = '\n' || c = '\r' || c = '\x0b' || c = '\x0c'

/-- Python str.lstrip (no arguments). -/
def pyLstrip (s : Str) : Str := s.dropWhile isSpaceC

/-- Python str.rstrip (no arguments). -/
def pyRstrip (s : Str) : Str := (s.reverse.dropWhile isSpaceC).reverse

/-- Python str.strip (no arguments). -/
def pyStrip (s : Str) : Str := pyRstrip (pyLstrip s)

/-- ASCII lower-casing extended with the Polish letters that appear in the
source's alphabets (Python str.lower restricted to the characters the
repository manipulates). -/
def lowerC (c : Char) : Char :=
  if 'A' ≤ c ∧ c ≤ 'Z' then Char.ofNat (c.toNat + 32)
  else if c = 'Ą' then 'ą' else if c = 'Ć' then 'ć' else if c = 'Ę' then 'ę'
  else if c = 'Ł' then 'ł' else if c = 'Ń' then 'ń' else if c = 'Ó' then 'ó'
  else if c = 'Ś' then 'ś' else if c = 'Ź' then 'ź' else if c = 'Ż' then 'ż'
  else c

/-- ASCII upper-casing extended with the same Polish letters. -/
def upperC (c : Char) : Char :=
  if 'a' ≤ c ∧ c ≤ 'z' then Char.ofNat (c.toNat - 32)
  else if c = 'ą' then 'Ą' else if c = 'ć' then 'Ć' else if c = 'ę' then 'Ę'
  else if c = 'ł' then 'Ł' else if c = 'ń' then 'Ń' else if c = 'ó' then 'Ó'
  else if c = 'ś' then 'Ś' else if c = 'ź' then 'Ź' else if c = 'ż' then 'Ż'
  else c

def pyLower (s : Str) : Str := s.map lowerC

def pyUpper (s : Str) : Str := s.map upperC

/-- Decimal digits of a natural number (fuel-driven so that the kernel can
evaluate it). -/
def natToStrAux : Nat → Nat → Str
  | 0, _ => []
  | fuel + 1, n =>
    if n < 10 then [Char.ofNat (48 + n)]
    else natToStrAux fuel (n / 10) ++ [Char.ofNat (48 + n % 10)]

def natToStr (n : Nat) : Str := natToStrAux (n + 1) n

/-- Python str() of an int. -/
def intToStr (n : Int) : Str :=
  if n < 0 then '-' :: natToStr n.natAbs else natToStr n.toNat

/-- Value of a nonempty digit string (used only in specifications about the
source's int() coercions). -/
def digitsToNat (s : Str) : Nat :=
  s.foldl (fun acc c => acc * 10 + (c.toNat - 48)) 0

/-- Python int(str) semantics for the strings the source feeds it: optional
whitespace padding, optional sign, then decimal digits; anything else raises
(`none`). -/
def pyParseInt (s : Str) : Option Int :=
  let t := pyStrip s
  match t with
  | '-' :: ds => if ds ≠ [] ∧ ds.all Char.isDigit then some (-(digitsToNat ds : Int)) else none
  | '+' :: ds => if ds ≠ [] ∧ ds.all Char.isDigit then some (digitsToNat ds : Int) else none
  | ds => if ds ≠ [] ∧ ds.all Char.isDigit then some (digitsToNat ds : Int) else none

/-! ## Citation resolver (bot.py lines 263-270; bot2.py uses the same regex) -/

/-- Deterministic semantics of matching the anchored regex
REF_RE from bot.py line 263 (book token = nonempty run of
non-digits, at least one whitespace character, chapter digits, a colon,
verse digits with an optional dash range, trailing whitespace), followed by
the tuple construction of parse_ref: the book group is returned stripped.
The regex's IGNORECASE flag has no effect since the pattern contains no
cased literals.  Backtracking of the greedy pieces reduces to: the character
directly before the first digit must be whitespace, and the stripped book
group equals the stripped prefix before that whitespace. -/
def parseRef (s : Str) : Option (Str × Str × Str) :=
  let pre := s.takeWhile (fun c => !c.isDigit)
  let rest := s.dropWhile (fun c => !c.isDigit)
  if pre.length < 2 then none
  else if isSpaceC (pre.getLastD ' ') then
    let ch := rest.takeWhile Char.isDigit
    let r1 := rest.dropWhile Char.isDigit
    if r1.head? = some ':' then
      let r2 := r1.tail
      let v1 := r2.takeWhile Char.isDigit
      let r3 := r2.dropWhile Char.isDigit
      if v1 = [] then none
      else if r3.head? = some '-' then
        let r4 := r3.tail
        let v2 := r4.takeWhile Char.isDigit
        let r5 := r4.dropWhile Char.isDigit
        if v2 = [] then none
        else if r5.all isSpaceC then some (pyStrip pre.dropLast, ch, v1 ++ '-' :: v2)
        else none
      else if r3.all isSpaceC then some (pyStrip pre.dropLast, ch, v1)
      else none
    else none
  else none

def AllSpace (l : Str) : Prop := ∀ c ∈ l, isSpaceC c = true

def AllDigit (l : Str) : Prop := ∀ c ∈ l, c.isDigit = true

def NoDigit (l : Str) : Prop := ∀ c ∈ l, c.isDigit = false

/-- The verse group of the grammar: digits, optionally digits-dash-digits. -/
def VerseForm (v : Str) : Prop :=
  (v ≠ [] ∧ AllDigit v) ∨
  (∃ d1 d2, v = d1 ++ '-' :: d2 ∧ d1 ≠ [] ∧ d2 ≠ [] ∧ AllDigit d1 ∧ AllDigit d2)

/-- Declarative reading of the citation grammar
book-token whitespace chapter colon verse dash-verse-option trailing-space,
with the book token any nonempty run of non-digit characters (leading
whitespace is absorbed into the book token, exactly as the regex's
leading backslash-s-star plus bracket-caret-d-plus do). -/
def RefGrammar (s : Str) : Prop :=
  ∃ b w c v t, s = b ++ w ++ c ++ ':' :: (v ++ t) ∧
    b ≠ [] ∧ NoDigit b ∧ w ≠ [] ∧ AllSpace w ∧ c ≠ [] ∧ AllDigit c ∧
    VerseForm v ∧ AllSpace t

/-! ## TTL cache (bot.py lines 83-96) -/

/-- The process-wide cache dict, one per value type actually cached.  Python
dict keys are unique, so the store is modelled as a partial map. -/
def Cache (V : Type) := Str → Option (Int × V)

def CACHE_TTL : Int := 300

/-- cache_get from bot.py lines 86-93: returns the stored value and the
(possibly evicted) store.  The entry dict is always truthy when present, so
the source's `if not v` test is exactly the absence test. -/
def cacheGet {V : Type} (c : Cache V) (now : Int) (k : Str) : Option V × Cache V :=
  match c k with
  | none => (none, c)
  | some (t, d) =>
    if now - t > CACHE_TTL then (none, fun k' => if k' = k then none else c k')
    else (some d, c)

/-- cache_set from bot.py lines 95-96. -/
def cacheSet {V : Type} (c : Cache V) (now : Int) (k : Str) (d : V) : Cache V :=
  fun k' => if k' = k then some (now, d) else c k'

def emptyCache {V : Type} : Cache V := fun _ => none

/-! ## Fetch client (bot.py lines 224-260)

A response oracle maps the attempt number to `none` (a network-level
exception during that attempt) or `some (status, body)`.  The sleep calls
only delay and are dropped.  Each function also reports how many attempts
were consumed. -/

/-- Statuses retried by http_get_text (bot.py line 254). -/
def textRetryable (s : Nat) : Bool := s = 403 || s = 503

/-- Statuses retried by http_get_json (bot.py line 236). -/
def jsonRetryable (s : Nat) : Bool :=
  s = 429 || s = 500 || s = 502 || s = 503 || s = 504

/-- http_get_text from bot.py lines 244-260: `rem` attempts remain, `a`
attempts already made.  Returns ((status, body), attempts made). -/
def httpGetTextAux (r : Nat → Option (Nat × Str)) : Nat → Nat → (Nat × Str) × Nat
  | 0, a => ((403, "<blocked>".toList), a)
  | rem + 1, a =>
    match r a with
    | none => httpGetTextAux r rem (a + 1)
    | some (st, body) =>
      if st = 200 then ((st, body), a + 1)
      else if textRetryable st then httpGetTextAux r rem (a + 1)
      else ((st, body), a + 1)

def httpGetText (r : Nat → Option (Nat × Str)) : (Nat × Str) × Nat :=
  httpGetTextAux r 3 0

/-- The (status, body) pair observed by callers of http_get_text. -/
def httpGetTextR (r : Nat → Option (Nat × Str)) : Nat × Str := (httpGetText r).1

/-- http_get_json from bot.py lines 224-242.  The body is modelled
post-parse: a response carries `some j` when json.loads succeeds on its text
and `none` when it fails (on a 200, the source then returns (200, None)). -/
def httpGetJsonAux {J : Type} (r : Nat → Option (Nat × Option J)) :
    Nat → Nat → (Nat × Option J) × Nat
  | 0, a => ((503, none), a)
  | rem + 1, a =>
    match r a with
    | none => httpGetJsonAux r rem (a + 1)
    | some (st, mj) =>
      if st = 200 then ((st, mj), a + 1)
      else if jsonRetryable st then httpGetJsonAux r rem (a + 1)
      else ((st, none), a + 1)

def httpGetJson {J : Type} (r : Nat → Option (Nat × Option J)) : (Nat × Option J) × Nat :=
  httpGetJsonAux r 3 0

def httpGetJsonR {J : Type} (r : Nat → Option (Nat × Option J)) : Nat × Option J :=
  (httpGetJson r).1

/-! ## Result chunker (bot.py lines 455-467) -/

structure Chunk where
  title : Str
  description : Str
  footer : Str
deriving DecidableEq, Repr

/-- The string appended to the buffer for one line: the stripped line plus a
paragraph break (bot.py line 459). -/
def addOf (line : Str) : Str := pyStrip line ++ ['\n', '\n']

/-- The loop of _split_for_embeds with the final flush (bot.py 456-467). -/
def splitForEmbedsAux (title footer : Str) (limit : Nat) : List Str → Str → List Chunk
  | [], buf =>
    if buf ≠ [] then [⟨title, pyRstrip buf, footer⟩] else []
  | line :: rest, buf =>
    let add := addOf line
    if buf.length + add.length > limit ∧ buf ≠ [] then
      ⟨title, pyRstrip buf, footer⟩ :: splitForEmbedsAux title footer limit rest add
    else
      splitForEmbedsAux title footer limit rest (buf ++ add)

/-- _split_for_embeds from bot.py lines 455-467. -/
def splitForEmbeds (title footer : Str) (lines : List Str) (limit : Nat) : List Chunk :=
  splitForEmbedsAux title footer limit lines []

/-! ## Hebrew diacritic stripping and highlighting (bot.py lines 121-172) -/

/-- The character class of _HE_DIA (bot.py line 121): Hebrew accents and
points U+0591-U+05BD and U+05BF-U+05C7. -/
def isHeDia (c : Char) : Bool :=
  (0x591 ≤ c.toNat && c.toNat ≤ 0x5BD) || (0x5BF ≤ c.toNat && c.toNat ≤ 0x5C7)

/-- strip_hebrew_diacritics from bot.py lines 129-130. -/
def stripHe (s : Str) : Str := s.filter (fun c => !isHeDia c)

/-- The enumerated kept characters of _build_strip_map (bot.py lines
132-139): for each non-mark character its original index and the character
itself, indices starting at `i`. -/
def stripWithMap : Str → Nat → List (Nat × Char)
  | [], _ => []
  | c :: cs, i =>
    if isHeDia c then stripWithMap cs (i + 1)
    else (i, c) :: stripWithMap cs (i + 1)

/-- Python str.find(sub, start) for a nonempty sub: least index at or after
`start` where `ns` is a prefix of the rest of `hs`. -/
def findFrom (hs ns : Str) (start : Nat) : Option Nat :=
  (((List.range (hs.length + 1)).filter
      (fun i => decide (start ≤ i) && ns.isPrefixOf (hs.drop i)))).head?

/-- The while-loop of highlight_hebrew (bot.py lines 148-158) collecting
non-overlapping stripped-string match positions left to right; the next
search resumes at j + 1 = i + ns.length. -/
def findAllAux (hs ns : Str) : Nat → Nat → List Nat
  | 0, _ => []
  | fuel + 1, start =>
    match findFrom hs ns start with
    | none => []
    | some i => i :: findAllAux hs ns fuel (i + ns.length)

def findAll (hs ns : Str) : List Nat := findAllAux hs ns (hs.length + 1) 0

/-- The original-string spans (orig_start, orig_end) computed by
highlight_hebrew through the index map. -/
def highlightMatches (hay needle : Str) : List (Nat × Nat) :=
  let km := stripWithMap hay 0
  let hs := km.map Prod.snd
  let mapIdx := km.map Prod.fst
  let ns := stripHe needle
  (findAll hs ns).map (fun i => (mapIdx.getD i 0, mapIdx.getD (i + ns.length - 1) 0 + 1))

/-- The splice loop of highlight_hebrew (bot.py lines 161-172): emphasis
markers around each span, spans with a start before the previous end are
skipped. -/
def renderMatches (hay : Str) : List (Nat × Nat) → Nat → Str
  | [], prev => hay.drop prev
  | (a, b) :: ms, prev =>
    if a < prev then renderMatches hay ms prev
    else
      (hay.drop prev).take (a - prev) ++ '*' :: '*' :: (hay.drop a).take (b - a)
        ++ '*' :: '*' :: renderMatches hay ms b

/-- highlight_hebrew from bot.py lines 141-172. -/
def highlightHebrew (hay needle : Str) : Str :=
  if hay = [] ∨ needle = [] then hay
  else
    let ns := stripHe needle
    if ns = [] then hay
    else
      let ms := highlightMatches hay needle
      if ms = [] then hay else renderMatches hay ms 0

/-! ## JSON-like values

Payloads decoded by json.loads and ast.literal_eval are modelled by one
value type.  Python dict keys in the source's paths are strings; objects
are association lists with unique keys (duplicate keys are overwritten at
parse time, as dict construction does). -/

inductive JVal where
  | jnull : JVal
  | jbool : Bool → JVal
  | jnum : Int → JVal
  | jstr : Str → JVal
  | jarr : List JVal → JVal
  | jobj : List (Str × JVal) → JVal

/-- Python truthiness of a decoded value. -/
def jTruthy : JVal → Bool
  | .jnull => false
  | .jbool b => b
  | .jnum n => n != 0
  | .jstr s => !s.isEmpty
  | .jarr xs => !xs.isEmpty
  | .jobj fs => !fs.isEmpty

/-- First binding of a key (keys are unique after parsing). -/
def objFind (fs : List (Str × JVal)) (k : Str) : Option JVal :=
  (fs.find? (fun p => p.1 == k)).map Prod.snd

/-- dict.get(k) with the None default, on the dict-shaped values the source
guards with isinstance checks; on non-objects it yields None. -/
def pyGet (v : JVal) (k : Str) : JVal :=
  match v with
  | .jobj fs => (objFind fs k).getD .jnull
  | _ => .jnull

/-- Python `a or b`. -/
def pyOr (a b : JVal) : JVal := if jTruthy a then a else b

/-- dict insertion: overwrite in place if the key exists, else append
(Python dict construction order). -/
def objInsert (fs : List (Str × JVal)) (k : Str) (v : JVal) : List (Str × JVal) :=
  if fs.any (fun p => p.1 == k) then fs.map (fun p => if p.1 == k then (k, v) else p)
  else fs ++ [(k, v)]

/-- Separator-joined concatenation (str.join). -/
def joinSep (sep : Str) : List Str → Str
  | [] => []
  | [x] => x
  | x :: rest => x ++ sep ++ joinSep sep rest

/-- Python repr of a string: single quotes, switching to double quotes when
the text contains a single quote but no double quote; backslash, quote and
the common control characters escaped. -/
def pyReprStrEsc (q : Char) : Str → Str
  | [] => []
  | c :: rest =>
    (if c = '\\' then ['\\', '\\']
     else if c = q then ['\\', q]
     else if c = '\n' then ['\\', 'n']
     else if c = '\r' then ['\\', 'r']
     else if c = '\t' then ['\\', 't']
     else [c]) ++ pyReprStrEsc q rest

def pyReprStr (s : Str) : Str :=
  let q := if s.elem '\'' && !(s.elem '"') then '"' else '\''
  q :: pyReprStrEsc q s ++ [q]

/-! Python repr of a decoded value.  Strings render with pyReprStr, lists
as bracketed comma-space lists, dicts as brace-delimited key-colon-value
pairs, exactly as repr prints the values the source turns back into text
with str(). -/
mutual

def jvalRepr : JVal → Str
  | .jnull => "None".toList
  | .jbool true => "True".toList
  | .jbool false => "False".toList
  | .jnum n => intToStr n
  | .jstr s => pyReprStr s
  | .jarr xs => '[' :: jarrRepr xs ++ [']']
  | .jobj fs => '\x7b' :: jobjRepr fs ++ ['\x7d']

def jarrRepr : List JVal → Str
  | [] => []
  | v :: rest => jvalRepr v ++ jarrReprTail rest

def jarrReprTail : List JVal → Str
  | [] => []
  | v :: rest => ',' :: ' ' :: jvalRepr v ++ jarrReprTail rest

def jobjRepr : List (Str × JVal) → Str
  | [] => []
  | (k, v) :: rest => pyReprStr k ++ ':' :: ' ' :: jvalRepr v ++ jobjReprTail rest

def jobjReprTail : List (Str × JVal) → Str
  | [] => []
  | (k, v) :: rest => ',' :: ' ' :: pyReprStr k ++ ':' :: ' ' :: jvalRepr v ++ jobjReprTail rest

end

/-- Python str() of a decoded value: identity on strings, repr otherwise. -/
def jvalToStr : JVal → Str
  | .jstr s => s
  | v => jvalRepr v

/-! ## json.loads (bot.py lines 549, 573) modelled for the shapes the
provider emits: objects, arrays, double-quoted strings with the common
escapes, integers, true/false/null.  Floats and exponents are outside the
model (a payload using them parses as a failure, which the source treats as
an unusable body). -/

def jsonWsC (c : Char) : Bool := c = ' ' || c = '\t' || c = '\n' || c = '\r'

/-- A double-quoted JSON string body (after the opening quote); returns the
decoded text and the remainder after the closing quote. -/
def jsonStrTok : Str → Option (Str × Str)
  | [] => none
  | '"' :: rest => some ([], rest)
  | '\\' :: rest =>
    match rest with
    | '"' :: r => (jsonStrTok r).map (fun p => ('"' :: p.1, p.2))
    | '\\' :: r => (jsonStrTok r).map (fun p => ('\\' :: p.1, p.2))
    | '/' :: r => (jsonStrTok r).map (fun p => ('/' :: p.1, p.2))
    | 'n' :: r => (jsonStrTok r).map (fun p => ('\n' :: p.1, p.2))
    | 't' :: r => (jsonStrTok r).map (fun p => ('\t' :: p.1, p.2))
    | 'r' :: r => (jsonStrTok r).map (fun p => ('\r' :: p.1, p.2))
    | 'b' :: r => (jsonStrTok r).map (fun p => ('\x08' :: p.1, p.2))
    | 'f' :: r => (jsonStrTok r).map (fun p => ('\x0c' :: p.1, p.2))
    | _ => none
  | c :: rest => (jsonStrTok rest).map (fun p => (c :: p.1, p.2))

/-- A JSON integer literal (json rejects leading zeros and this model
rejects the float continuations it does not cover). -/
def jsonNumTok (s : Str) : Option (JVal × Str) :=
  let (neg, s1) := match s with
    | '-' :: r => (true, r)
    | _ => (false, s)
  let ds := s1.takeWhile Char.isDigit
  let rest := s1.dropWhile Char.isDigit
  if ds = [] then none
  else if 1 < ds.length ∧ ds.head? = some '0' then none
  else match rest.head? with
    | some '.' => none
    | some 'e' => none
    | some 'E' => none
    | _ => some (.jnum (if neg then -(digitsToNat ds : Int) else (digitsToNat ds : Int)), rest)

inductive JMode where
  | top : JMode
  | arr : List JVal → JMode
  | obj : List (Str × JVal) → JMode

def jparseGo : Nat → JMode → Str → Option (JVal × Str)
  | 0, _, _ => none
  | fuel + 1, .top, s =>
    match s.dropWhile jsonWsC with
    | [] => none
    | '"' :: rest => (jsonStrTok rest).map (fun p => (.jstr p.1, p.2))
    | '[' :: rest =>
      (match rest.dropWhile jsonWsC with
       | ']' :: r2 => some (.jarr [], r2)
       | r1 => jparseGo fuel (.arr []) r1)
    | '\x7b' :: rest =>
      (match rest.dropWhile jsonWsC with
       | '\x7d' :: r2 => some (.jobj [], r2)
       | r1 => jparseGo fuel (.obj []) r1)
    | 't' :: rest =>
      if rest.take 3 = "rue".toList then some (.jbool true, rest.drop 3) else none
    | 'f' :: rest =>
      if rest.take 4 = "alse".toList then some (.jbool false, rest.drop 4) else none
    | 'n' :: rest =>
      if rest.take 3 = "ull".toList then some (.jnull, rest.drop 3) else none
    | s1 => jsonNumTok s1
  | fuel + 1, .arr acc, s =>
    match jparseGo fuel .top s with
    | none => none
    | some (v, r) =>
      match r.dropWhile jsonWsC with
      | ',' :: r2 => jparseGo fuel (.arr (acc ++ [v])) r2
      | ']' :: r2 => some (.jarr (acc ++ [v]), r2)
      | _ => none
  | fuel + 1, .obj acc, s =>
    match s.dropWhile jsonWsC with
    | '"' :: rest =>
      (match jsonStrTok rest with
       | none => none
       | some (k, r1) =>
         match r1.dropWhile jsonWsC with
         | ':' :: r2 =>
           (match jparseGo fuel .top r2 with
            | none => none
            | some (v, r3) =>
              match r3.dropWhile jsonWsC with
              | ',' :: r4 => jparseGo fuel (.obj (objInsert acc k v)) r4
              | '\x7d' :: r4 => some (.jobj (objInsert acc k v), r4)
              | _ => none)
         | _ => none)
    | _ => none

def jsonParse (s : Str) : Option JVal :=
  match jparseGo (2 * s.length + 4) .top s with
  | some (v, r) => if (r.dropWhile jsonWsC).isEmpty then some v else none
  | none => none

/-! ## ast.literal_eval (bot.py line 487) modelled for the literals the
stringified payloads contain: None/True/False, integers, single- or
double-quoted strings with the common escapes, lists and dicts with string
keys.  Anything else (tuples, floats, non-string keys, malformed text) is a
parse failure, which the source catches and answers with the regex
fallback. -/

def pyStrTok (q : Char) : Str → Option (Str × Str)
  | [] => none
  | '\\' :: rest =>
    (match rest with
     | '\'' :: r => (pyStrTok q r).map (fun p => ('\'' :: p.1, p.2))
     | '"' :: r => (pyStrTok q r).map (fun p => ('"' :: p.1, p.2))
     | '\\' :: r => (pyStrTok q r).map (fun p => ('\\' :: p.1, p.2))
     | 'n' :: r => (pyStrTok q r).map (fun p => ('\n' :: p.1, p.2))
     | 't' :: r => (pyStrTok q r).map (fun p => ('\t' :: p.1, p.2))
     | 'r' :: r => (pyStrTok q r).map (fun p => ('\r' :: p.1, p.2))
     | _ => none)
  | c :: rest =>
    if c = q then some ([], rest)
    else (pyStrTok q rest).map (fun p => (c :: p.1, p.2))

def pyNumTok (s : Str) : Option (JVal × Str) :=
  let (neg, s1) := match s with
    | '-' :: r => (true, r)
    | _ => (false, s)
  let ds := s1.takeWhile Char.isDigit
  let rest := s1.dropWhile Char.isDigit
  if ds = [] then none
  else if 1 < ds.length ∧ ds.head? = some '0' then none
  else match rest.head? with
    | some '.' => none
    | some 'e' => none
    | some 'E' => none
    | some 'j' => none
    | _ => some (.jnum (if neg then -(digitsToNat ds : Int) else (digitsToNat ds : Int)), rest)

def plparseGo : Nat → JMode → Str → Option (JVal × Str)
  | 0, _, _ => none
  | fuel + 1, .top, s =>
    match s.dropWhile jsonWsC with
    | [] => none
    | '\'' :: rest => (pyStrTok '\'' rest).map (fun p => (.jstr p.1, p.2))
    | '"' :: rest => (pyStrTok '"' rest).map (fun p => (.jstr p.1, p.2))
    | '[' :: rest =>
      (match rest.dropWhile jsonWsC with
       | ']' :: r2 => some (.jarr [], r2)
       | r1 => plparseGo fuel (.arr []) r1)
    | '\x7b' :: rest =>
      (match rest.dropWhile jsonWsC with
       | '\x7d' :: r2 => some (.jobj [], r2)
       | r1 => plparseGo fuel (.obj []) r1)
    | 'T' :: rest =>
      if rest.take 3 = "rue".toList then some (.jbool true, rest.drop 3) else none
    | 'F' :: rest =>
      if rest.take 4 = "alse".toList then some (.jbool false, rest.drop 4) else none
    | 'N' :: rest =>
      if rest.take 3 = "one".toList then some (.jnull, rest.drop 3) else none
    | s1 => pyNumTok s1
  | fuel + 1, .arr acc, s =>
    match plparseGo fuel .top s with
    | none => none
    | some (v, r) =>
      match r.dropWhile jsonWsC with
      | ',' :: r2 => plparseGo fuel (.arr (acc ++ [v])) r2
      | ']' :: r2 => some (.jarr (acc ++ [v]), r2)
      | _ => none
  | fuel + 1, .obj acc, s =>
    match plparseGo fuel .top s with
    | none => none
    | some (kv, r1) =>
      match kv with
      | .jstr k =>
        (match r1.dropWhile jsonWsC with
         | ':' :: r2 =>
           (match plparseGo fuel .top r2 with
            | none => none
            | some (v, r3) =>
              match r3.dropWhile jsonWsC with
              | ',' :: r4 => plparseGo fuel (.obj (objInsert acc k v)) r4
              | '\x7d' :: r4 => some (.jobj (objInsert acc k v), r4)
              | _ => none)
         | _ => none)
      | _ => none

def pyLiteralEval (s : Str) : Option JVal :=
  match plparseGo (2 * s.length + 4) .top s with
  | some (v, r) => if (r.dropWhile jsonWsC).isEmpty then some v else none
  | none => none

/-! ## Text extraction helpers (bot.py lines 470-520) -/

/-- Python substring membership, case-sensitive. -/
def hasSub (s sub : Str) : Bool :=
  (List.range (s.length + 1)).any (fun i => sub.isPrefixOf (s.drop i))

/-- The quote class of _TEXT_KEY_RE (bot.py line 470): straight double and
single quotes and the curly double quotes. -/
def isQuoteC (c : Char) : Bool := c = '"' || c = '\'' || c = '“' || c = '”'

/-- One attempted match of _TEXT_KEY_RE at the head of the input: a quote,
the word text case-insensitively, a quote, optional whitespace, a colon,
optional whitespace, a quote, then the lazily captured text up to the next
quote character; returns the capture and the remainder after the match. -/
def tryTextKey (s : Str) : Option (Str × Str) :=
  match s with
  | [] => none
  | q1 :: s1 =>
    if isQuoteC q1 then
      if (s1.take 4).map lowerC = "text".toList then
        match s1.drop 4 with
        | [] => none
        | q2 :: s2 =>
          if isQuoteC q2 then
            match s2.dropWhile isSpaceC with
            | ':' :: s4 =>
              (match s4.dropWhile isSpaceC with
               | [] => none
               | q3 :: s6 =>
                 if isQuoteC q3 then
                   let txt := s6.takeWhile (fun c => !isQuoteC c)
                   match s6.dropWhile (fun c => !isQuoteC c) with
                   | _ :: s7 => some (txt, s7)
                   | [] => none
                 else none)
            | _ => none
          else none
      else none
    else none

/-- All group-2 captures of _TEXT_KEY_RE.finditer, scanning left to right
without overlap. -/
def textKeyScan : Nat → Str → List Str
  | 0, _ => []
  | fuel + 1, s =>
    match s with
    | [] => []
    | c :: rest =>
      match tryTextKey (c :: rest) with
      | some (txt, r) => txt :: textKeyScan fuel r
      | none => textKeyScan fuel rest

def textKeyAll (s : Str) : List Str := textKeyScan (s.length + 1) s

/-- _extract_all_texts_from_any (bot.py lines 501-505): non-strings yield
the empty string; nonempty captures joined by single spaces. -/
def extractAllTexts (v : JVal) : Str :=
  match v with
  | .jstr s => joinSep " ".toList ((textKeyAll s).filter (fun p => !p.isEmpty))
  | _ => []

/-- The parts-collection loop of the list branch of _coerce_text_block
(bot.py lines 473-482). -/
def coerceListParts : List JVal → List Str
  | [] => []
  | (.jobj fs) :: rest =>
    let vtx := jvalToStr (pyOr ((objFind fs "text".toList).getD .jnull) (.jstr []))
    if vtx ≠ [] then vtx :: coerceListParts rest else coerceListParts rest
  | (.jstr s) :: rest => s :: coerceListParts rest
  | _ :: rest => coerceListParts rest

/-- _coerce_text_block (bot.py lines 472-493).  The fuel drives the
recursion through stringified payloads: every ast.literal_eval of a quoted
string yields a strictly shorter value, so the input length bounds it. -/
def coerceTextBlock : Nat → JVal → Str
  | _, .jarr items => joinSep " ".toList (coerceListParts items)
  | _, .jobj fs => jvalToStr (pyOr ((objFind fs "text".toList).getD .jnull) (.jstr []))
  | fuel, .jstr s =>
    if hasSub s "text".toList && (s.elem '[' || s.elem '\x7b') then
      match pyLiteralEval s with
      | some parsed =>
        (match fuel with
         | 0 => s
         | fuel' + 1 => coerceTextBlock fuel' parsed)
      | none =>
        let texts := textKeyAll s
        if texts ≠ [] then joinSep " ".toList texts else s
    else s
  | _, .jnull => []
  | _, v => jvalToStr v

def coerceText (v : JVal) : Str :=
  coerceTextBlock (match v with | .jstr s => s.length + 1 | _ => 1) v

/-- The letter class of _is_texty (bot.py line 499): ASCII letters plus the
Polish letters. -/
def isTextyLetter (c : Char) : Bool :=
  ('A' ≤ c && c ≤ 'Z') || ('a' ≤ c && c ≤ 'z') ||
  c = 'Ą' || c = 'Ć' || c = 'Ę' || c = 'Ł' || c = 'Ń' || c = 'Ó' || c = 'Ś' ||
  c = 'Ź' || c = 'Ż' ||
  c = 'ą' || c = 'ć' || c = 'ę' || c = 'ł' || c = 'ń' || c = 'ó' || c = 'ś' ||
  c = 'ź' || c = 'ż'

/-- _is_texty (bot.py lines 495-499): stripped length at least 5 and at
least one letter. -/
def isTexty (s : Str) : Bool :=
  decide (5 ≤ (pyStrip s).length) && (pyStrip s).any isTextyLetter

/-- The reference-field names excluded by _longest_string_record (bot.py
line 552). -/
def banKeys : List Str :=
  ["book", "chapter", "rozdzial", "verse", "verses", "werset", "wersety", "range"].map
    String.toList

/-- _longest_string_record (bot.py lines 551-554): the first longest
string-valued non-reference field, stripped; empty when there is none
(max with key=len keeps the first maximum). -/
def longestStringRecord (fs : List (Str × JVal)) : Str :=
  let cand := fs.filterMap (fun p =>
    if banKeys.contains p.1 then none
    else match p.2 with
      | .jstr s => some s
      | _ => none)
  match cand with
  | [] => []
  | c0 :: rest => pyStrip (rest.foldl (fun best x => if best.length < x.length then x else best) c0)

/-! ## The _strip_tags pipeline (bot.py lines 99-106) and related regex
substitutions, as left-to-right non-overlapping scanners. -/

/-- First position where `pat` (given lower-cased) occurs
case-insensitively. -/
def findSubCI (s pat : Str) : Option Nat :=
  (((List.range (s.length + 1)).filter
    (fun i => ((s.drop i).take pat.length).map lowerC == pat))).head?

/-- Removal of (?is) openPat .*? gt-sign .*? closePat blocks (the style and
script rules).  If the first opening tag cannot be completed by a closing
gt-sign and the closing pattern, no later occurrence can either, so the
text is returned unchanged. -/
def removeBlocks (openPat closePat : Str) : Nat → Str → Str
  | 0, s => s
  | fuel + 1, s =>
    match findSubCI s openPat with
    | none => s
    | some i =>
      let pre := s.take i
      let after := s.drop (i + openPat.length)
      match after.dropWhile (fun c => !(c = '>')) with
      | '>' :: a2 =>
        (match findSubCI a2 closePat with
         | none => s
         | some j => pre ++ removeBlocks openPat closePat fuel (a2.drop (j + closePat.length)))
      | _ => s

/-- Python str.replace: left-to-right, non-overlapping, case-sensitive. -/
def replaceSub (pat rep : Str) : Nat → Str → Str
  | 0, s => s
  | fuel + 1, s =>
    if pat.isPrefixOf s ∧ pat ≠ [] then rep ++ replaceSub pat rep fuel (s.drop pat.length)
    else
      match s with
      | [] => []
      | c :: rest => c :: replaceSub pat rep fuel rest

/-- Removal of lt-sign [^gt]+ gt-sign tags: a lt-sign with at least one
following character and then a gt-sign is deleted; a bare lt-gt pair or an
unterminated lt-sign is kept. -/
def removeTags : Nat → Str → Str
  | 0, s => s
  | fuel + 1, s =>
    match s with
    | [] => []
    | '<' :: rest =>
      (match rest with
       | '>' :: _ => '<' :: removeTags fuel rest
       | _ =>
         match rest.dropWhile (fun c => !(c = '>')) with
         | '>' :: r2 => removeTags fuel r2
         | _ => '<' :: removeTags fuel rest)
    | c :: rest => c :: removeTags fuel rest

/-- One match of the blank-line pattern carriage-return-option newline
space-tab-run carriage-return-option newline-plus at the head; returns the
remainder. -/
def matchBlank (s : Str) : Option Str :=
  let s1 := match s with
    | '\r' :: r => r
    | _ => s
  match s1 with
  | '\n' :: s2 =>
    let s3 := s2.dropWhile (fun c => c = ' ' || c = '\t')
    let s4 := match s3 with
      | '\r' :: r => r
      | _ => s3
    (match s4 with
     | '\n' :: s5 => some (s5.dropWhile (fun c => c = '\n'))
     | _ => none)
  | _ => none

/-- The blank-line collapse rule, replacing each match by one newline. -/
def collapseBlank : Nat → Str → Str
  | 0, s => s
  | fuel + 1, s =>
    match matchBlank s with
    | some r => '\n' :: collapseBlank fuel r
    | none =>
      match s with
      | [] => []
      | c :: rest => c :: collapseBlank fuel rest

/-- The space-tab-run collapse rule, replacing each run by one space. -/
def collapseSpaces : Nat → Str → Str
  | 0, s => s
  | fuel + 1, s =>
    match s with
    | [] => []
    | c :: rest =>
      if c = ' ' || c = '\t' then
        ' ' :: collapseSpaces fuel (rest.dropWhile (fun c => c = ' ' || c = '\t'))
      else c :: collapseSpaces fuel rest

/-- html.unescape restricted to the named and numeric entities that occur
in the modelled provider texts; unknown entities pass through unchanged, as
unescape leaves unknown text alone.  Single pass, no rescanning of the
substituted characters. -/
def htmlUnescape : Nat → Str → Str
  | 0, s => s
  | fuel + 1, s =>
    match s with
    | [] => []
    | '&' :: rest =>
      if "amp;".toList.isPrefixOf rest then '&' :: htmlUnescape fuel (rest.drop 4)
      else if "lt;".toList.isPrefixOf rest then '<' :: htmlUnescape fuel (rest.drop 3)
      else if "gt;".toList.isPrefixOf rest then '>' :: htmlUnescape fuel (rest.drop 3)
      else if "quot;".toList.isPrefixOf rest then '"' :: htmlUnescape fuel (rest.drop 5)
      else if "#39;".toList.isPrefixOf rest then '\'' :: htmlUnescape fuel (rest.drop 4)
      else if "nbsp;".toList.isPrefixOf rest then '\xa0' :: htmlUnescape fuel (rest.drop 5)
      else '&' :: htmlUnescape fuel rest
    | c :: rest => c :: htmlUnescape fuel rest

def pyUnescape (s : Str) : Str := htmlUnescape (s.length + 1) s

/-- _strip_tags (bot.py lines 99-106): style and script blocks removed,
br tags to newlines, all remaining tags removed, blank lines and
space runs collapsed, entities decoded, ends stripped. -/
def stripTags (html : Str) : Str :=
  let s0 := removeBlocks "<style".toList "</style>".toList (html.length + 1) html
  let s1 := removeBlocks "<script".toList "</script>".toList (s0.length + 1) s0
  let s2 := replaceSub "<br>".toList "\n".toList (s1.length + 1) s1
  let s3 := replaceSub "<br/>".toList "\n".toList (s2.length + 1) s2
  let s4 := replaceSub "<br />".toList "\n".toList (s3.length + 1) s3
  let s5 := removeTags (s4.length + 1) s4
  let s6 := collapseBlank (s5.length + 1) s5
  let s7 := collapseSpaces (s6.length + 1) s6
  pyStrip (pyUnescape s7)

/-- The (?is) lt-sign slash-option strong [^gt]* gt-sign removal rule
applied to hit text (bot.py line 620). -/
def strongStrip : Nat → Str → Str
  | 0, s => s
  | fuel + 1, s =>
    match s with
    | [] => []
    | '<' :: rest =>
      let r1 := match rest with
        | '/' :: r => r
        | _ => rest
      if (r1.take 6).map lowerC = "strong".toList then
        match (r1.drop 6).dropWhile (fun c => !(c = '>')) with
        | '>' :: r3 => strongStrip fuel r3
        | _ => '<' :: strongStrip fuel rest
      else '<' :: strongStrip fuel rest
    | c :: rest => c :: strongStrip fuel rest

def pyStrongStrip (s : Str) : Str := strongStrip (s.length + 1) s

/-- The anchored leading verse-number echo removal (bot.py line 623):
whitespace, the verse literal, a dot or closing parenthesis, whitespace —
removed once at the start if present.  The verse string is stripped and
nonempty at the call site, so its first character is not whitespace and
the match decomposition is unique. -/
def stripVerseEcho (verse txt : Str) : Str :=
  let rest := txt.dropWhile isSpaceC
  if verse.isPrefixOf rest then
    match rest.drop verse.length with
    | d :: r2 => if d = '.' ∨ d = ')' then r2.dropWhile isSpaceC else txt
    | [] => txt
  else txt

/-! ## _highlight_case_insensitive (bot.py lines 507-517) -/

/-- query.split() / re.split on whitespace with empty tokens dropped. -/
def wordsOf : Nat → Str → List Str
  | 0, _ => []
  | fuel + 1, s =>
    let s1 := s.dropWhile isSpaceC
    match s1 with
    | [] => []
    | _ => s1.takeWhile (fun c => !isSpaceC c) ::
        wordsOf fuel (s1.dropWhile (fun c => !isSpaceC c))

/-- Stable insertion for descending length order (sorted with key=len,
reverse=True keeps the original order among equal lengths). -/
def insDesc (w : Str) : List Str → List Str
  | [] => [w]
  | x :: xs => if x.length < w.length then w :: x :: xs else x :: insDesc w xs

def sortByLenDesc (ws : List Str) : List Str := ws.foldr insDesc []

/-- One word's case-insensitive literal substitution, wrapping each
non-overlapping left-to-right match in double asterisks (re.sub with
IGNORECASE on the escaped word). -/
def subCI (w : Str) : Nat → Str → Str
  | 0, s => s
  | fuel + 1, s =>
    if (s.take w.length).map lowerC = w.map lowerC ∧ w ≠ [] then
      '*' :: '*' :: s.take w.length ++ '*' :: '*' :: subCI w fuel (s.drop w.length)
    else
      match s with
      | [] => []
      | c :: rest => c :: subCI w fuel rest

/-- _highlight_case_insensitive (bot.py lines 507-517). -/
def highlightCI (hay needle : Str) : Str :=
  if hay = [] ∨ needle = [] then hay
  else
    (sortByLenDesc (wordsOf (needle.length + 1) (pyStrip needle))).foldl
      (fun h w => subCI w (h.length + 1) h) hay

/-! ## The phrase-search normalizer (bot.py lines 522-647) -/

inductive PyErr where
  | valueError : PyErr
  | attrError : PyErr
  | typeError : PyErr
  | runtimeError : Option Nat → Str → PyErr

structure Hit where
  ref : Str
  snippet : Str
deriving DecidableEq, Repr

/-- The meta dict (bot.py lines 635-641); rstart and rend carry the start
and end keys. -/
structure MetaRec where
  page : Int
  limit : Int
  total : Int
  rstart : Int
  rend : Int
deriving DecidableEq, Repr

/-- BIBLIA_INFO_CODES (bot.py lines 36-51). -/
def BIBLIA_INFO_CODES : List (Str × Str) :=
  [("bw", "bw"), ("bg", "bg"), ("ubg", "ubg"), ("bt", "bt"), ("bp", "bp"),
   ("bz", "bz"), ("np", "np"), ("pd", "pd"), ("npw", "npw"), ("eib", "eib"),
   ("snp", "snp"), ("tor", "tor"), ("wb", "wb"), ("nb", "ubg")].map
    (fun p => (p.1.toList, p.2.toList))

def lookupCode (trans : Str) : Option Str :=
  (BIBLIA_INFO_CODES.find? (fun p => p.1 == trans)).map Prod.snd

/-- The default provider base URL and the origin derived from it by
stripping the /api suffix (bot.py lines 32-33), with the environment
override out of scope. -/
def BIBLIA_INFO_BASE : Str := "https://www.biblia.info.pl/api".toList

def BIBLIA_ORIGIN : Str := "https://www.biblia.info.pl".toList

/-- urllib quote with safe set to the empty string: unreserved characters
pass, everything else is percent-encoded from its UTF-8 bytes with
uppercase hex. -/
def isUnreservedC (c : Char) : Bool :=
  ('A' ≤ c && c ≤ 'Z') || ('a' ≤ c && c ≤ 'z') || ('0' ≤ c && c ≤ '9') ||
  c = '_' || c = '.' || c = '-' || c = '~'

def utf8Bytes (c : Char) : List Nat :=
  let n := c.toNat
  if n < 0x80 then [n]
  else if n < 0x800 then [0xC0 + n / 64, 0x80 + n % 64]
  else if n < 0x10000 then [0xE0 + n / 4096, 0x80 + (n / 64) % 64, 0x80 + n % 64]
  else [0xF0 + n / 262144, 0x80 + (n / 4096) % 64, 0x80 + (n / 64) % 64, 0x80 + n % 64]

def hexDigitC (n : Nat) : Char :=
  if n < 10 then Char.ofNat (48 + n) else Char.ofNat (55 + n)

def pctEncodeByte (b : Nat) : Str := ['%', hexDigitC (b / 16), hexDigitC (b % 16)]

def pyQuote (s : Str) : Str :=
  (s.map (fun c =>
    if isUnreservedC c then [c] else ((utf8Bytes c).map pctEncodeByte).flatten)).flatten

def pyQuotePlus (s : Str) : Str :=
  (s.map (fun c =>
    if c = ' ' then ['+']
    else if isUnreservedC c then [c]
    else ((utf8Bytes c).map pctEncodeByte).flatten)).flatten

/-- _cache_key_search_api (bot.py lines 519-520). -/
def cacheKeySearchApi (trans phrase : Str) (limit page : Int) : Str :=
  "searchapi|".toList ++ trans ++ '|' :: pyLower (pyStrip phrase) ++
    '|' :: intToStr limit ++ '|' :: intToStr page

/-- The pagination clamps of bot.py lines 530-531 and 386-387. -/
def clampPage (p : Int) : Int := max 1 p

def clampLimit (l : Int) : Int := max 1 (min 25 l)

/-- _to_int (bot.py lines 556-560): int(str(x).strip()) or None. -/
def toIntOpt (v : JVal) : Option Int := pyParseInt (jvalToStr v)

/-- The total-count extraction loop (bot.py lines 578-580): the first
present key wins, retrying while the accumulator is still None. -/
def totalKeys : List Str :=
  ["all_results", "total_results", "total", "hits_total", "count"].map String.toList

def extractTotal (fs : List (Str × JVal)) (acc : Option Int) : Option Int :=
  totalKeys.foldl
    (fun a k =>
      if fs.any (fun p => p.1 == k) && a.isNone then toIntOpt ((objFind fs k).getD .jnull)
      else a)
    acc

/-- The anchored range regex digits dash digits with optional whitespace
(bot.py line 582). -/
def parseRangePair (s : Str) : Option (Int × Int) :=
  let s1 := s.dropWhile isSpaceC
  let d1 := s1.takeWhile Char.isDigit
  let r1 := s1.dropWhile Char.isDigit
  if d1 = [] then none
  else
    match r1.dropWhile isSpaceC with
    | '-' :: r3 =>
      let r4 := r3.dropWhile isSpaceC
      let d2 := r4.takeWhile Char.isDigit
      let r5 := r4.dropWhile Char.isDigit
      if d2 = [] then none
      else if (r5.dropWhile isSpaceC).isEmpty then
        some ((digitsToNat d1 : Int), (digitsToNat d2 : Int))
      else none
    | _ => none

/-- The range-field read (bot.py lines 581-584): the or-chain of
results_range and range, defaulting to the empty string; .strip() on a
non-string value raises AttributeError. -/
def extractRange (fs : List (Str × JVal)) (rng : Option (Int × Int)) :
    Except PyErr (Option (Int × Int)) :=
  let rv := pyOr ((objFind fs "results_range".toList).getD .jnull)
    (pyOr ((objFind fs "range".toList).getD .jnull) (.jstr []))
  match rv with
  | .jstr s =>
    (match parseRangePair (pyStrip s) with
     | some ab => .ok (some ab)
     | none => .ok rng)
  | _ => .error .attrError

/-- The hit-list selection (bot.py lines 586-593): the first of results,
hits, data, items holding a list; a top-level list is itself the sequence.
-/
def seqKeys : List Str := ["results", "hits", "data", "items"].map String.toList

def selectSeq (data : JVal) : List JVal :=
  match data with
  | .jobj fs =>
    (match seqKeys.foldl
        (fun acc k =>
          match acc with
          | some l => some l
          | none =>
            match objFind fs k with
            | some (.jarr l) => some l
            | _ => none)
        none with
     | some l => l
     | none => [])
  | .jarr l => l
  | _ => []

/-- Python word characters for the boundary in backslash-b digits
backslash-b: ASCII alphanumerics, the underscore, and (conservatively) any
non-ASCII character. -/
def isWordC (c : Char) : Bool := c.isAlphanum || c = '_' || decide (0x80 ≤ c.toNat)

/-- re.search of a boundary-delimited digit run: the first maximal digit
run with non-word characters (or the ends) on both sides. -/
def firstIntBoundary : Nat → Option Char → Str → Option Str
  | 0, _, _ => none
  | fuel + 1, prev, s =>
    match s with
    | [] => none
    | c :: rest =>
      if c.isDigit && !((prev.map isWordC).getD false) then
        let run := c :: rest.takeWhile Char.isDigit
        match rest.dropWhile Char.isDigit with
        | [] => some run
        | a :: r2 =>
          if isWordC a then firstIntBoundary fuel (some a) r2 else some run
      else firstIntBoundary fuel (some c) rest

/-- The book display name (bot.py lines 598-602): r.get("book") or an
empty dict, then the or-chain of the abbreviation keys, stripped and
upper-cased; a truthy non-dict book or a truthy non-string field raises
AttributeError. -/
def bDispOf (r : JVal) : Except PyErr Str :=
  let book := pyOr (pyGet r "book".toList) (.jobj [])
  match book with
  | .jobj fs =>
    (match pyOr ((objFind fs "abbreviation".toList).getD .jnull)
        (pyOr ((objFind fs "abbr".toList).getD .jnull)
        (pyOr ((objFind fs "short".toList).getD .jnull)
        (pyOr ((objFind fs "short_name".toList).getD .jnull)
        (pyOr ((objFind fs "name".toList).getD .jnull) (.jstr []))))) with
     | .jstr s => .ok (pyUpper (pyStrip s))
     | _ => .error .attrError)
  | _ => .error .attrError

/-- chapter (bot.py line 603). -/
def chapterOf (r : JVal) : Str :=
  pyStrip (jvalToStr (pyOr (pyGet r "chapter".toList)
    (pyOr (pyGet r "rozdzial".toList) (.jstr []))))

/-- verse (bot.py lines 604-609): the or-chain, str, strip, commas to
colons, and the first boundary integer when brackets remain. -/
def verseOf (r : JVal) : Str :=
  let vr := pyOr (pyGet r "verse".toList)
    (pyOr (pyGet r "verses".toList)
    (pyOr (pyGet r "werset".toList)
    (pyOr (pyGet r "wersety".toList)
    (pyOr (pyGet r "range".toList) (.jstr [])))))
  let v0 := (pyStrip (jvalToStr vr)).map (fun c => if c = ',' then ':' else c)
  if v0.elem '[' || v0.elem '\x7b' then
    (firstIntBoundary (v0.length + 1) none v0).getD []
  else v0

/-- raw text selection (bot.py lines 610-611). -/
def rawTextOf (r : JVal) : JVal :=
  pyOr (pyGet r "text".toList)
    (pyOr (pyGet r "content".toList)
    (pyOr (pyGet r "snippet".toList)
    (pyOr (pyGet r "fragment".toList)
    (pyOr (pyGet r "tekst".toList)
    (pyOr (pyGet r "tresc".toList)
    (pyOr (pyGet r "html".toList) (.jstr [])))))))

/-- One record of the normalization loop (bot.py lines 595-627): non-dicts
are skipped; the text runs through coerce, the repr fallback, the
longest-field fallback, the cleanup pass and the verse-echo strip; a Hit is
emitted only when book, chapter and verse are nonempty and the final text
passes _is_texty. -/
def txt4Of (fs : List (Str × JVal)) : Str :=
  let r := JVal.jobj fs
  let verse := verseOf r
  let txt0 := coerceText (rawTextOf r)
  let txt1 := if isTexty txt0 then txt0 else extractAllTexts (.jstr (jvalRepr r))
  let txt2 := if isTexty txt1 then txt1
    else if isTexty (longestStringRecord fs) then longestStringRecord fs else []
  let txt3 := if txt2 ≠ [] then
      pyStrip (stripTags (pyStrongStrip (pyUnescape txt2)))
    else txt2
  if verse ≠ [] ∧ txt3 ≠ [] then stripVerseEcho verse txt3 else txt3

def processRecord (r : JVal) : Except PyErr (Option Hit) :=
  match r with
  | .jobj fs =>
    (match bDispOf r with
     | .error e => .error e
     | .ok bdisp =>
       if bdisp ≠ [] ∧ chapterOf r ≠ [] ∧ verseOf r ≠ [] ∧ isTexty (txt4Of fs) then
         .ok (some ⟨bdisp ++ ' ' :: chapterOf r ++ ':' :: verseOf r, txt4Of fs⟩)
       else .ok none)
  | _ => .ok none

def processSeq : List JVal → Except PyErr (List Hit)
  | [] => .ok []
  | r :: rest =>
    match processRecord r with
    | .error e => .error e
    | .ok none => processSeq rest
    | .ok (some h) =>
      match processSeq rest with
      | .error e => .error e
      | .ok hs => .ok (h :: hs)

/-- The meta construction (bot.py lines 629-641): a provider range is used
as is; otherwise the range is estimated from page, limit and the emitted
hit count, and the estimated end is capped at a truthy total. -/
def metaFor (page limit : Int) (outLen : Nat) (totalAll : Option Int)
    (rng : Option (Int × Int)) : MetaRec :=
  match rng with
  | some (a, b) => ⟨page, limit, totalAll.getD (outLen : Int), a, b⟩
  | none =>
    let rs : Int := (page - 1) * limit + 1
    let re0 : Int := rs + (outLen : Int) - 1
    let re1 : Int :=
      match totalAll with
      | some t => if t ≠ 0 ∧ re0 > t then t else re0
      | none => re0
    ⟨page, limit, totalAll.getD (outLen : Int), rs, re1⟩

def SearchVal : Type := List Hit × Str × MetaRec

/-- The URL loop of biblia_info_search_phrase_api (bot.py lines 567-647):
per URL one http_get_text, last status and body snippet tracked, JSON
parse, total and range extraction, record normalization; the first URL
with a nonempty hit list yields the meta, highlighted snippets, the cache
store and the return; exhaustion raises with the last diagnostics. -/
def searchGo (world : Str → Nat → Option (Nat × Str)) (cache1 : Cache SearchVal)
    (tSet : Int) (ck spUrl phrase : Str) (page limit : Int) :
    List Str → Option Int → Option (Int × Int) → Option Nat → Str →
    (Except PyErr SearchVal) × Cache SearchVal
  | [], _, _, lastSt, lastBody => (.error (.runtimeError lastSt lastBody), cache1)
  | url :: rest, tAll, rng, _, _ =>
    let sb := httpGetTextR (world url)
    let lastSt' := some sb.1
    let lastBody' := (sb.2.take 1000).map (fun c => if c = '\n' then ' ' else c)
    if sb.1 ≠ 200 ∨ sb.2 = [] then
      searchGo world cache1 tSet ck spUrl phrase page limit rest tAll rng lastSt' lastBody'
    else
      match jsonParse sb.2 with
      | none =>
        searchGo world cache1 tSet ck spUrl phrase page limit rest tAll rng lastSt' lastBody'
      | some data =>
        match (match data with
               | .jobj fs => (extractRange fs rng).map (fun rr => (extractTotal fs tAll, rr))
               | _ => .ok (tAll, rng)) with
        | .error e => (.error e, cache1)
        | .ok (tAll', rng') =>
          match processSeq (selectSeq data) with
          | .error e => (.error e, cache1)
          | .ok out =>
            if out.isEmpty then
              searchGo world cache1 tSet ck spUrl phrase page limit rest tAll' rng'
                lastSt' lastBody'
            else
              let meta := metaFor page limit out.length tAll' rng'
              let out' := out.map (fun h => Hit.mk h.ref (highlightCI h.snippet phrase))
              let v : SearchVal := (out', spUrl, meta)
              (.ok v, cacheSet cache1 tSet ck v)

/-- biblia_info_search_phrase_api (bot.py lines 522-647): translation
check, phrase strip and emptiness check, pagination clamps, cache key and
lookup, URL construction, then the URL loop. -/
def bibliaInfoSearchPhraseApi (world : Str → Nat → Option (Nat × Str))
    (cache : Cache SearchVal) (tGet tSet : Int) (trans phrase : Str)
    (limit page : Int) : (Except PyErr SearchVal) × Cache SearchVal :=
  match lookupCode trans with
  | none => (.error .valueError, cache)
  | some code =>
    let phrase' := pyStrip phrase
    if phrase' = [] then (.error .valueError, cache)
    else
      let page' := clampPage page
      let limit' := clampLimit limit
      let ck := cacheKeySearchApi trans phrase' limit' page'
      let gc := cacheGet cache tGet ck
      match gc.1 with
      | some v => (.ok v, gc.2)
      | none =>
        let qPath := pyQuote phrase'
        let spUrl := BIBLIA_ORIGIN ++ "/szukaj.php?st=".toList ++ pyQuotePlus phrase' ++
          "&tl=".toList ++ code ++ "&p=".toList ++ intToStr page'
        let urls := [
          BIBLIA_INFO_BASE ++ "/search/".toList ++ code ++ '/' :: qPath ++
            "?page=".toList ++ intToStr page' ++ "&limit=".toList ++ intToStr limit',
          BIBLIA_INFO_BASE ++ "/szukaj/".toList ++ code ++ '/' :: qPath ++
            "?page=".toList ++ intToStr page' ++ "&limit=".toList ++ intToStr limit']
        searchGo world gc.2 tSet ck spUrl phrase' page' limit' urls none none none []

/-! ## The passage lookup (bot.py lines 325-351)

biblia_html_to_text and clean_pl_verse_text only transform the fetched
text; the cache-lifecycle claims quantify over them, so they are taken as
function parameters of the embedding. -/

/-- slug_try (bot.py lines 336-339): the lower-cased book with the four
Polish letters transliterated, then the plain lower-cased book. -/
def slugTry (bookPl : Str) : List Str :=
  [(pyLower bookPl).map (fun c =>
      if c = 'ł' then 'l' else if c = 'ś' then 's'
      else if c = 'ż' then 'z' else if c = 'ź' then 'z' else c),
   pyLower bookPl]

def passageUrl (code slug ch vs : Str) : Str :=
  BIBLIA_INFO_BASE ++ "/werset/".toList ++ code ++ '/' :: slug ++ '/' :: ch ++ '/' :: vs

def passageKey (trans book ch vs : Str) : Str :=
  "biblia_info|".toList ++ trans ++ '|' :: book ++ '|' :: ch ++ '|' :: vs

/-- The slug loop of biblia_info_get_passage (bot.py lines 340-351): per
slug one http_get_text; on a 200 with a non-blank body whose extracted text
is nonempty, the cleaned text is cached and returned; otherwise the next
slug; exhaustion raises with the last status and snippet. -/
def passageGo (h2t clean : Str → Str) (world : Str → Nat → Option (Nat × Str))
    (cache1 : Cache Str) (tSet : Int) (key code ch vs : Str) :
    List Str → Option Nat → Str → (Except PyErr Str) × Cache Str
  | [], lastSt, lastSnip => (.error (.runtimeError lastSt lastSnip), cache1)
  | slug :: rest, _, _ =>
    let sb := httpGetTextR (world (passageUrl code slug ch vs))
    let lastSt' := some sb.1
    let lastSnip' := (sb.2.take 120).map (fun c => if c = '\n' then ' ' else c)
    if sb.1 = 200 ∧ pyStrip sb.2 ≠ [] then
      let text := h2t sb.2
      if text ≠ [] then
        let t2 := clean text
        (.ok t2, cacheSet cache1 tSet key t2)
      else passageGo h2t clean world cache1 tSet key code ch vs rest lastSt' lastSnip'
    else passageGo h2t clean world cache1 tSet key code ch vs rest lastSt' lastSnip'

/-- biblia_info_get_passage (bot.py lines 325-351): translation check,
reference parse, cache lookup (an empty cached string is falsy and
refetches), then the slug loop. -/
def bibliaInfoGetPassage (h2t clean : Str → Str) (world : Str → Nat → Option (Nat × Str))
    (cache : Cache Str) (tGet tSet : Int) (trans ref : Str) :
    (Except PyErr Str) × Cache Str :=
  match lookupCode trans with
  | none => (.error .valueError, cache)
  | some code =>
    match parseRef ref with
    | none => (.error .valueError, cache)
    | some (book, ch, vs) =>
      let key := passageKey trans book ch vs
      let gc := cacheGet cache tGet key
      match gc.1 with
      | some s =>
        if s ≠ [] then (.ok s, gc.2)
        else passageGo h2t clean world gc.2 tSet key code ch vs (slugTry book) none []
      | none => passageGo h2t clean world gc.2 tSet key code ch vs (slugTry book) none []

/-! ## The Hebrew search (bot.py lines 353-423) -/

def API_BIBLE_BASE : Str := "https://api.scripture.api.bible/v1".toList

def WLC_BIBLE_ID : Str := "0b262f1ed7f084a6-01".toList

/-- NIQQUD_HINTS (bot.py lines 370-375). -/
def NIQQUD_HINTS : List (Str × Str) :=
  [("אלהים", "אֱלֹהִים"), ("ויאמר", "וַיֹּאמֶר"), ("ויאמרו", "וַיֹּאמְרוּ"),
   ("בראשית", "בְּרֵאשִׁית")].map (fun p => (p.1.toList, p.2.toList))

def hasHebrewLetters (s : Str) : Bool :=
  s.any (fun c => 0x590 ≤ c.toNat && c.toNat ≤ 0x5FF)

def hasNiqqud (s : Str) : Bool := s.any isHeDia

/-- add_niqqud_hints_if_missing (bot.py lines 369-383). -/
def addNiqqudHints (q : Str) : Str :=
  if !hasHebrewLetters q || hasNiqqud q then q
  else
    joinSep " ".toList ((wordsOf (q.length + 1) q).map (fun p =>
      ((NIQQUD_HINTS.find? (fun kv => kv.1 == stripHe p)).map Prod.snd).getD p))

/-- Python int(x) on a decoded value: ints pass, numeric strings parse,
bools coerce, anything else raises. -/
def pyIntOfJ : JVal → Except PyErr Int
  | .jnum n => .ok n
  | .jstr s =>
    (match pyParseInt s with
     | some n => .ok n
     | none => .error .valueError)
  | .jbool b => .ok (if b then 1 else 0)
  | _ => .error .typeError

structure HMeta where
  page : Int
  limit : Int
  offset : Int
  total : Int
  pages : Int
deriving DecidableEq, Repr

/-- The hit comprehension of _extract (bot.py line 402): falsy entries are
skipped, dict entries yield an id (or empty) and a str reference; a truthy
non-dict entry raises. -/
def hitsOfVerses : List JVal → Except PyErr (List (JVal × Str))
  | [] => .ok []
  | v :: rest =>
    if jTruthy v then
      match v with
      | .jobj vfs =>
        (match hitsOfVerses rest with
         | .error e => .error e
         | .ok t =>
           .ok ((pyOr ((objFind vfs "id".toList).getD .jnull) (.jstr []),
             jvalToStr (pyOr ((objFind vfs "reference".toList).getD .jnull) (.jstr []))) :: t))
      | _ => .error .attrError
    else hitsOfVerses rest

/-- _extract (bot.py lines 399-408): data.get("data") or an empty dict (a
truthy non-dict raises on .get), the verses list (iterating a truthy
non-list raises), the int-coerced limit (0 falls back to per_page), offset
and total, and the page arithmetic with Python floor division. -/
def extractHebrew (perPage apiOffset : Int) (data : JVal) :
    Except PyErr (List (JVal × Str) × HMeta) :=
  match pyOr (pyGet data "data".toList) (.jobj []) with
  | .jobj dfs =>
    (match pyOr ((objFind dfs "verses".toList).getD .jnull) (.jarr []) with
     | .jarr verses =>
       (match hitsOfVerses verses with
        | .error e => .error e
        | .ok hits =>
          match pyIntOfJ ((objFind dfs "limit".toList).getD (.jnum perPage)) with
          | .error e => .error e
          | .ok lim0 =>
            let lim := if lim0 = 0 then perPage else lim0
            match pyIntOfJ ((objFind dfs "offset".toList).getD (.jnum apiOffset)) with
            | .error e => .error e
            | .ok off =>
              match pyIntOfJ ((objFind dfs "total".toList).getD (.jnum 0)) with
              | .error e => .error e
              | .ok total =>
                let pages := if lim ≠ 0 then Int.fdiv (total + lim - 1) lim else 1
                .ok (hits, ⟨off + 1, lim, off, total, max pages 1⟩))
     | .jstr _ => .error .attrError
     | .jobj _ => .error .attrError
     | _ => .error .typeError)
  | _ => .error .attrError

def hebrewSearchUrl (q : Str) (apiOffset perPage : Int) : Str :=
  API_BIBLE_BASE ++ "/bibles/".toList ++ WLC_BIBLE_ID ++ "/search?query=".toList ++
    pyQuotePlus q ++ "&offset=".toList ++ intToStr apiOffset ++ "&limit=".toList ++
    intToStr perPage ++ "&sort=relevance".toList

/-- One _call plus extraction (bot.py lines 390-395, 411-412): a 200 dict
body is extracted (which may raise); anything else leaves hits and meta
untouched. -/
def hebrewCall (worldJ : Str → Nat → Option (Nat × Option JVal)) (q : Str)
    (apiOffset perPage : Int) : Nat × Except PyErr (Option (List (JVal × Str) × HMeta)) :=
  let sd := httpGetJsonR (worldJ (hebrewSearchUrl q apiOffset perPage))
  (sd.1,
    if sd.1 = 200 then
      match sd.2 with
      | some (.jobj fs) => (extractHebrew perPage apiOffset (.jobj fs)).map some
      | _ => .ok none
    else .ok none)

/-- api_bible_search_hebrew (bot.py lines 385-423): pagination clamps, the
first call, the niqqud-hinted retry when no hits came back and the query is
un-pointed Hebrew, and the RuntimeError carrying the first status when no
call produced a meta. -/
def apiBibleSearchHebrew (worldJ : Str → Nat → Option (Nat × Option JVal))
    (query : Str) (page perPage : Int) : Except PyErr (List (JVal × Str) × HMeta) :=
  let page' := clampPage page
  let pp' := clampLimit perPage
  let off := page' - 1
  match hebrewCall worldJ query off pp' with
  | (_, .error e) => .error e
  | (st, .ok r0) =>
    let hits0 := (r0.map Prod.fst).getD []
    if hits0.isEmpty && hasHebrewLetters query && !hasNiqqud query &&
        addNiqqudHints query != query then
      match hebrewCall worldJ (addNiqqudHints query) off pp' with
      | (_, .error e) => .error e
      | (_, .ok r2) =>
        match (match r2 with
               | some hm2 => some hm2
               | none => r0) with
        | some hm => .ok hm
        | none => .error (.runtimeError (some st) [])
    else
      match r0 with
      | some hm => .ok hm
      | none => .error (.runtimeError (some st) [])

/-! ## Concrete provider fixtures used by the counterexamples and
witnesses -/

/-! A double-quoted JSON serializer for building wire bodies that jsonParse
reads back; used only to construct concrete fixtures. -/
mutual

def jsonRender : JVal → Str
  | .jnull => "null".toList
  | .jbool true => "true".toList
  | .jbool false => "false".toList
  | .jnum n => intToStr n
  | .jstr s => '"' :: s ++ ['"']
  | .jarr xs => '[' :: jsonRenderArr xs ++ [']']
  | .jobj fs => '\x7b' :: jsonRenderObj fs ++ ['\x7d']

def jsonRenderArr : List JVal → Str
  | [] => []
  | v :: rest => jsonRender v ++ jsonRenderArrT rest

def jsonRenderArrT : List JVal → Str
  | [] => []
  | v :: rest => ',' :: jsonRender v ++ jsonRenderArrT rest

def jsonRenderObj : List (Str × JVal) → Str
  | [] => []
  | (k, v) :: rest => '"' :: k ++ '"' :: ':' :: jsonRender v ++ jsonRenderObjT rest

def jsonRenderObjT : List (Str × JVal) → Str
  | [] => []
  | (k, v) :: rest => ',' :: '"' :: k ++ '"' :: ':' :: jsonRender v ++ jsonRenderObjT rest

end

/-- A provider search payload with a total-count field of 1 but two valid
records (the provider range field absent). -/
def cxRec1 : JVal :=
  .jobj [("book".toList, .jobj [("abbr".toList, .jstr "Rdz".toList)]),
    ("chapter".toList, .jstr "1".toList), ("verse".toList, .jstr "1".toList),
    ("text".toList, .jstr "Na poczatku swiat".toList)]

def cxRec2 : JVal :=
  .jobj [("book".toList, .jobj [("abbr".toList, .jstr "Wj".toList)]),
    ("chapter".toList, .jstr "2".toList), ("verse".toList, .jstr "3".toList),
    ("text".toList, .jstr "Drugi tekst dlugi".toList)]

def cxPayload : JVal :=
  .jobj [("total".toList, .jnum 1), ("results".toList, .jarr [cxRec1, cxRec2])]

def cxBody : Str := jsonRender cxPayload

def cxUrl : Str :=
  BIBLIA_INFO_BASE ++ "/search/".toList ++ "bw".toList ++ '/' :: pyQuote "abc".toList ++
    "?page=".toList ++ intToStr 1 ++ "&limit=".toList ++ intToStr 5

/-- A response oracle serving the fixture payload on the first search URL
and 404 elsewhere. -/
def cxWorld : Str → Nat → Option (Nat × Str) := fun url _ =>
  if url = cxUrl then some (200, cxBody) else some (404, "nf".toList)

/-- The value the search embedding computes from the fixture world. -/
def cxExpected : SearchVal :=
  ([⟨"RDZ 1:1".toList, "Na poczatku swiat".toList⟩,
    ⟨"WJ 2:3".toList, "Drugi tekst dlugi".toList⟩],
   "https://www.biblia.info.pl/szukaj.php?st=abc&tl=bw&p=1".toList,
   ⟨1, 5, 1, 1, 1⟩)

/-- The stringified multi-verse list of the C8 scenario, produced exactly
as Python repr prints it. -/
def c8Val : JVal :=
  .jarr [.jobj [("verse".toList, .jnum 1), ("text".toList, .jstr "Foo".toList)],
         .jobj [("verse".toList, .jnum 2), ("text".toList, .jstr "Bar".toList)]]

def c8Str : Str := jvalRepr c8Val

/-- A malformed stringified record on which structural parsing fails but
the regex extraction still finds a text value. -/
def c8Bad : Str := jvalRepr (.jobj [("text".toList, .jstr "Fooba".toList)]) ++ [']']

/-! ### Definitions continue above this marker; theorems below. -/

/-! ## General list helpers -/

theorem takeWhile_append_all {p : Char → Bool} {l1 l2 : Str}
    (h : ∀ c ∈ l1, p c = true) : (l1 ++ l2).takeWhile p = l1 ++ l2.takeWhile p := by
  induction l1 with
  | nil => simp
  | cons a l ih =>
    have ha : p a = true := h a (by simp)
    simp only [List.cons_append, List.takeWhile_cons, ha, if_pos]
    rw [ih (fun c hc => h c (by simp [hc]))]

theorem dropWhile_append_all {p : Char → Bool} {l1 l2 : Str}
    (h : ∀ c ∈ l1, p c = true) : (l1 ++ l2).dropWhile p = l2.dropWhile p := by
  induction l1 with
  | nil => simp
  | cons a l ih =>
    have ha : p a = true := h a (by simp)
    simp only [List.cons_append, List.dropWhile_cons, ha, if_pos]
    exact ih (fun c hc => h c (by simp [hc]))

theorem dropWhile_head_false {p : Char → Bool} :
    ∀ {l : Str} {c : Char} {t : Str}, l.dropWhile p = c :: t → p c = false := by
  intro l
  induction l with
  | nil => intro c t h; simp at h
  | cons a l ih =>
    intro c t h
    by_cases ha : p a = true
    · rw [List.dropWhile_cons, if_pos ha] at h
      exact ih h
    · rw [List.dropWhile_cons, if_neg ha] at h
      injection h with h1 _
      subst h1
      simpa using ha

theorem head?_eq_some_decomp {l : Str} {a : Char} (h : l.head? = some a) :
    l = a :: l.tail := by
  cases l with
  | nil => simp at h
  | cons x t => simp at h; simp [h]

theorem getLastD_irrel : ∀ (l : Str) (d d' : Char), l ≠ [] →
    l.getLastD d = l.getLastD d' := by
  intro l d d' h
  cases l with
  | nil => exact absurd rfl h
  | cons a t => rw [List.getLastD_cons, List.getLastD_cons]

theorem getLastD_append_ne : ∀ (b w : Str) (d : Char), w ≠ [] →
    (b ++ w).getLastD d = w.getLastD d := by
  intro b
  induction b with
  | nil => intro w d _; rfl
  | cons a b ih =>
    intro w d hw
    rw [List.cons_append, List.getLastD_cons, ih w a hw]
    exact getLastD_irrel w a d hw

theorem getLastD_mem : ∀ (l : Str) (d : Char), l ≠ [] → l.getLastD d ∈ l := by
  intro l
  induction l with
  | nil => intro d h; exact absurd rfl h
  | cons a t ih =>
    intro d _
    rw [List.getLastD_cons]
    cases t with
    | nil => simp [List.getLastD]
    | cons x u => exact List.mem_cons_of_mem a (ih a (by simp))

theorem space_not_digit {c : Char} (h : isSpaceC c = true) : c.isDigit = false := by
  simp only [isSpaceC, Bool.or_eq_true, decide_eq_true_eq] at h
  rcases h with ((((h | h) | h) | h) | h) | h <;> subst h <;> decide

theorem dropWhile_dropWhile {p : Char → Bool} (l : Str) :
    (l.dropWhile p).dropWhile p = l.dropWhile p := by
  cases h : l.dropWhile p with
  | nil => rfl
  | cons c t =>
    have := dropWhile_head_false h
    simp [List.dropWhile_cons, this]

theorem takeWhile_cons_false {p : Char → Bool} {a : Char} (h : p a = false) (l : Str) :
    (a :: l).takeWhile p = [] := by
  simp [List.takeWhile_cons, h]

theorem dropWhile_cons_false {p : Char → Bool} {a : Char} (h : p a = false) (l : Str) :
    (a :: l).dropWhile p = a :: l := by
  simp [List.dropWhile_cons, h]

/-! ## C1: the citation grammar -/

theorem parseRef_some_grammar {s : Str} {b c v : Str}
    (h : parseRef s = some (b, c, v)) : RefGrammar s := by
  simp only [parseRef] at h
  set q : Char → Bool := fun c => !c.isDigit with hq
  set pre := s.takeWhile q with hpre
  set rest := s.dropWhile q with hrest
  have hsplit : s = pre ++ rest := (List.takeWhile_append_dropWhile (p := q) (l := s)).symm
  by_cases h1 : pre.length < 2
  · rw [if_pos h1] at h; exact absurd h (by simp)
  rw [if_neg h1] at h
  have hpre_ne : pre ≠ [] := by
    intro hh; rw [hh] at h1; exact h1 (by simp)
  by_cases h2 : isSpaceC (pre.getLastD ' ') = true
  · rw [if_pos h2] at h
    set ch := rest.takeWhile Char.isDigit with hch
    set r1 := rest.dropWhile Char.isDigit with hr1
    by_cases h3 : r1.head? = some ':'
    · rw [if_pos h3] at h
      set r2 := r1.tail with hr2
      set v1 := r2.takeWhile Char.isDigit with hv1
      set r3 := r2.dropWhile Char.isDigit with hr3
      have hrest_split : rest = ch ++ r1 :=
        (List.takeWhile_append_dropWhile (p := Char.isDigit) (l := rest)).symm
      have hr1d : r1 = ':' :: r2 := head?_eq_some_decomp h3
      have hch_ne : ch ≠ [] := by
        intro hh
        have hrd : List.dropWhile q s = ':' :: r2 := by
          rw [← hrest, hrest_split, hh, List.nil_append, hr1d]
        have := dropWhile_head_false hrd
        rw [hq] at this
        exact absurd this (by decide)
      have hpre_dec : pre.dropLast ++ [pre.getLast hpre_ne] = pre :=
        List.dropLast_append_getLast hpre_ne
      have hb_ne : pre.dropLast ≠ [] := by
        have hlen : pre.dropLast.length = pre.length - 1 := List.length_dropLast pre
        intro hh
        rw [hh] at hlen
        simp only [List.length_nil] at hlen
        omega
      have hlast_sp : isSpaceC (pre.getLast hpre_ne) = true := by
        have heq : pre.getLastD ' ' = pre.getLast hpre_ne := by
          conv_lhs => rw [← hpre_dec]
          rw [getLastD_append_ne _ _ _ (by simp)]
          rfl
        rw [← heq]; exact h2
      have hpre_nd : NoDigit pre := by
        intro x hx
        rw [hpre] at hx
        have := List.mem_takeWhile_imp hx
        simpa [q] using this
      have hch_d : AllDigit ch := by
        intro x hx
        rw [hch] at hx
        exact List.mem_takeWhile_imp hx
      have hv1_d : AllDigit v1 := by
        intro x hx
        rw [hv1] at hx
        exact List.mem_takeWhile_imp hx
      have hr2_split : r2 = v1 ++ r3 :=
        (List.takeWhile_append_dropWhile (p := Char.isDigit) (l := r2)).symm
      by_cases h4 : v1 = []
      · rw [if_pos h4] at h; exact absurd h (by simp)
      rw [if_neg h4] at h
      by_cases h5 : r3.head? = some '-'
      · rw [if_pos h5] at h
        set r4 := r3.tail with hr4
        set v2 := r4.takeWhile Char.isDigit with hv2
        set r5 := r4.dropWhile Char.isDigit with hr5
        have hr3d : r3 = '-' :: r4 := head?_eq_some_decomp h5
        have hv2_d : AllDigit v2 := by
          intro x hx
          rw [hv2] at hx
          exact List.mem_takeWhile_imp hx
        by_cases h6 : v2 = []
        · rw [if_pos h6] at h; exact absurd h (by simp)
        rw [if_neg h6] at h
        by_cases h7 : r5.all isSpaceC = true
        · refine ⟨pre.dropLast, [pre.getLast hpre_ne], ch, v1 ++ '-' :: v2, r5, ?_, ?_⟩
          · have hr4_split : r4 = v2 ++ r5 :=
              (List.takeWhile_append_dropWhile (p := Char.isDigit) (l := r4)).symm
            rw [hsplit, hrest_split, hr1d, hr2_split, hr3d, hr4_split, hpre_dec]
            simp
          · refine ⟨hb_ne, ?_, by simp, ?_, hch_ne, hch_d, ?_, ?_⟩
            · intro x hx; exact hpre_nd x (List.dropLast_subset pre hx)
            · intro x hx; simp at hx; rw [hx]; exact hlast_sp
            · exact Or.inr ⟨v1, v2, rfl, h4, h6, hv1_d, hv2_d⟩
            · intro x hx
              exact List.all_eq_true.mp h7 x hx
        · rw [if_neg h7] at h; exact absurd h (by simp)
      · rw [if_neg h5] at h
        by_cases h7 : r3.all isSpaceC = true
        · refine ⟨pre.dropLast, [pre.getLast hpre_ne], ch, v1, r3, ?_, ?_⟩
          · rw [hsplit, hrest_split, hr1d, hr2_split, hpre_dec]
            simp
          · refine ⟨hb_ne, ?_, by simp, ?_, hch_ne, hch_d, ?_, ?_⟩
            · intro x hx; exact hpre_nd x (List.dropLast_subset pre hx)
            · intro x hx; simp at hx; rw [hx]; exact hlast_sp
            · exact Or.inl ⟨h4, hv1_d⟩
            · intro x hx
              exact List.all_eq_true.mp h7 x hx
        · rw [if_neg h7] at h; exact absurd h (by simp)
    · rw [if_neg h3] at h; exact absurd h (by simp)
  · rw [if_neg h2] at h
    exact absurd h (by simp)

theorem grammar_parseRef_isSome {s : Str} (hg : RefGrammar s) : (parseRef s).isSome := by
  obtain ⟨b, w, c, v, t, hs, hb, hbd, hw, hws, hc, hcd, hvf, hts⟩ := hg
  obtain ⟨c0, c', hc0⟩ : ∃ c0 c', c = c0 :: c' := by
    cases c with
    | nil => exact absurd rfl hc
    | cons x u => exact ⟨x, u, rfl⟩
  have hc0d : c0.isDigit = true := hcd c0 (by rw [hc0]; simp)
  have hbw_all : ∀ x ∈ b ++ w, (!x.isDigit) = true := by
    intro x hx
    rcases List.mem_append.mp hx with h | h
    · simp [hbd x h]
    · simp [space_not_digit (hws x h)]
  have htail : c ++ ':' :: (v ++ t) = c0 :: (c' ++ ':' :: (v ++ t)) := by rw [hc0]; simp
  have hq0 : (!c0.isDigit) = false := by rw [hc0d]; rfl
  have hcoln : (':'.isDigit) = false := rfl
  have hpre : s.takeWhile (fun x => !x.isDigit) = b ++ w := by
    rw [hs, List.append_assoc, takeWhile_append_all hbw_all, htail,
      takeWhile_cons_false hq0, List.append_nil]
  have hrest : s.dropWhile (fun x => !x.isDigit) = c ++ ':' :: (v ++ t) := by
    rw [hs, List.append_assoc, dropWhile_append_all hbw_all, htail,
      dropWhile_cons_false hq0, ← htail]
  have htsp_nd : ∀ x ∈ t, x.isDigit = false := fun x hx => space_not_digit (hts x hx)
  have htw : t.takeWhile Char.isDigit = [] := by
    cases ht : t with
    | nil => rfl
    | cons x u =>
      have hx : x.isDigit = false := htsp_nd x (by rw [ht]; simp)
      exact takeWhile_cons_false hx u
  have htdrop : t.dropWhile Char.isDigit = t := by
    cases ht : t with
    | nil => rfl
    | cons x u =>
      have hx : x.isDigit = false := htsp_nd x (by rw [ht]; simp)
      exact dropWhile_cons_false hx u
  have hlen2 : ¬ ((b ++ w).length < 2) := by
    have hb1 : 1 ≤ b.length := List.length_pos.mpr hb
    have hw1 : 1 ≤ w.length := List.length_pos.mpr hw
    simp only [List.length_append]
    omega
  have hlast : isSpaceC ((b ++ w).getLastD ' ') = true := by
    rw [getLastD_append_ne b w ' ' hw]
    exact hws _ (getLastD_mem w ' ' hw)
  have hch_eq : (c ++ ':' :: (v ++ t)).takeWhile Char.isDigit = c := by
    rw [takeWhile_append_all hcd, takeWhile_cons_false hcoln, List.append_nil]
  have hr1_eq : (c ++ ':' :: (v ++ t)).dropWhile Char.isDigit = ':' :: (v ++ t) := by
    rw [dropWhile_append_all hcd, dropWhile_cons_false hcoln]
  have htall : t.all isSpaceC = true := List.all_eq_true.mpr (fun x hx => hts x hx)
  simp only [parseRef]
  rw [hpre, hrest, if_neg hlen2, if_pos hlast, hch_eq, hr1_eq]
  have hcolon : (':' :: (v ++ t)).head? = some ':' := rfl
  rw [if_pos hcolon]
  simp only [List.tail_cons]
  rcases hvf with ⟨hv_ne, hvd⟩ | ⟨d1, d2, hveq, hd1, hd2, hd1d, hd2d⟩
  · have hv1eq : (v ++ t).takeWhile Char.isDigit = v := by
      rw [takeWhile_append_all hvd, htw, List.append_nil]
    have hr3eq : (v ++ t).dropWhile Char.isDigit = t := by
      rw [dropWhile_append_all hvd, htdrop]
    rw [hv1eq, hr3eq, if_neg hv_ne]
    have hnotdash : ¬ (t.head? = some '-') := by
      intro hh
      have hdec := head?_eq_some_decomp hh
      have hsp : isSpaceC '-' = true := hts '-' (by rw [hdec]; simp)
      exact absurd hsp (by decide)
    rw [if_neg hnotdash, if_pos htall]
    simp
  · have hdash : ('-'.isDigit) = false := rfl
    have hv1eq : (v ++ t).takeWhile Char.isDigit = d1 := by
      rw [hveq, List.append_assoc, takeWhile_append_all hd1d, List.cons_append,
        takeWhile_cons_false hdash, List.append_nil]
    have hr3eq : (v ++ t).dropWhile Char.isDigit = '-' :: (d2 ++ t) := by
      rw [hveq, List.append_assoc, dropWhile_append_all hd1d, List.cons_append,
        dropWhile_cons_false hdash]
    rw [hv1eq, hr3eq, if_neg hd1]
    have hdashhead : ('-' :: (d2 ++ t)).head? = some '-' := rfl
    rw [if_pos hdashhead]
    simp only [List.tail_cons]
    have hv2eq : (d2 ++ t).takeWhile Char.isDigit = d2 := by
      rw [takeWhile_append_all hd2d, htw, List.append_nil]
    have hr5eq : (d2 ++ t).dropWhile Char.isDigit = t := by
      rw [dropWhile_append_all hd2d, htdrop]
    rw [hv2eq, hr5eq, if_neg hd2, if_pos htall]
    simp

/-- C1 (amended): parse_ref accepts exactly the regex grammar: a nonempty
run of non-digit characters, whitespace, digits, a colon, digits with an
optional dash range, and trailing whitespace.  Because the book token is a
run of non-digits, digit-prefixed book names never parse; the concrete
conjuncts show digit-free references parsing. -/
theorem parseRef_matches_grammar :
    (∀ s : Str, (parseRef s).isSome ↔ RefGrammar s) ∧
    parseRef ("Kor 3:16".toList) = some ("Kor".toList, "3".toList, "16".toList) ∧
    parseRef ("Obj 21:3-5".toList) = some ("Obj".toList, "21".toList, "3-5".toList) := by
  refine ⟨fun s => ⟨?_, grammar_parseRef_isSome⟩, by decide, by decide⟩
  intro h
  obtain ⟨x, hx⟩ := Option.isSome_iff_exists.mp h
  exact parseRef_some_grammar (b := x.1) (c := x.2.1) (v := x.2.2) (by rw [hx])

/-- C1 (counterexample): the digit-prefixed multi-word and compact book
names that the claim says must parse are rejected by parse_ref, because the
book token of REF_RE is a run of non-digit characters. -/
theorem parseRef_digit_book_counterexample :
    parseRef ("1 Kor 3:16".toList) = none ∧
    parseRef ("2 Kor 3:16".toList) = none ∧
    parseRef ("1Sm 3:16".toList) = none := by
  exact ⟨by decide, by decide, by decide⟩

/-! ## C4: the result chunker -/

theorem pyRstrip_append_nn (x : Str) : pyRstrip (x ++ ['\n', '\n']) = pyRstrip x := by
  have h : isSpaceC '\n' = true := rfl
  simp [pyRstrip, List.dropWhile_cons, h]

theorem pyRstrip_idem (x : Str) : pyRstrip (pyRstrip x) = pyRstrip x := by
  simp only [pyRstrip, List.reverse_reverse]
  rw [dropWhile_dropWhile]

theorem pyRstrip_pyStrip (l : Str) : pyRstrip (pyStrip l) = pyStrip l := by
  simp only [pyStrip]
  rw [pyRstrip_idem]

theorem pyRstrip_addOf (l : Str) : pyRstrip (addOf l) = pyStrip l := by
  rw [show addOf l = pyStrip l ++ ['\n', '\n'] from rfl, pyRstrip_append_nn, pyRstrip_pyStrip]

theorem pyRstrip_length_le (x : Str) : (pyRstrip x).length ≤ x.length := by
  simp only [pyRstrip, List.length_reverse]
  have h := (List.dropWhile_sublist (l := x.reverse) isSpaceC).length_le
  simpa using h

theorem pyStrip_length_le (x : Str) : (pyStrip x).length ≤ x.length := by
  simp only [pyStrip, pyLstrip]
  exact le_trans (pyRstrip_length_le _)
    (List.dropWhile_sublist (l := x) isSpaceC).length_le

theorem addOf_ne_nil (l : Str) : addOf l ≠ [] := by simp [addOf]

theorem flatten_addOf_nil {g : List Str} (h : (g.map addOf).flatten = []) : g = [] := by
  cases g with
  | nil => rfl
  | cons a t =>
    rw [List.map_cons, List.flatten_cons] at h
    rcases List.append_eq_nil.mp h with ⟨h1, _⟩
    exact absurd h1 (addOf_ne_nil a)

theorem chunk_disjunct {limit : Nat} {bufg : List Str}
    (hinv : (bufg.map addOf).flatten.length ≤ limit ∨ ∃ l, bufg = [l]) :
    (pyRstrip (bufg.map addOf).flatten).length ≤ limit ∨
      ∃ l, bufg = [l] ∧ limit < (pyStrip l).length := by
  by_cases hlen : (pyRstrip (bufg.map addOf).flatten).length ≤ limit
  · exact Or.inl hlen
  · rcases hinv with hle | ⟨l, rfl⟩
    · exact absurd (le_trans (pyRstrip_length_le _) hle) hlen
    · have hfl : (([l] : List Str).map addOf).flatten = addOf l := by simp
      rw [hfl, pyRstrip_addOf] at hlen
      exact Or.inr ⟨l, rfl, by omega⟩

theorem splitAux_spec (title footer : Str) (limit : Nat) :
    ∀ (rest : List Str) (bufg : List Str),
      ((bufg.map addOf).flatten.length ≤ limit ∨ ∃ l, bufg = [l]) →
      ∃ groups : List (List Str),
        groups.flatten = bufg ++ rest ∧
        List.Forall₂ (fun g ch =>
            ch.description = pyRstrip (g.map addOf).flatten ∧ g ≠ [] ∧
            (ch.description.length ≤ limit ∨ ∃ l, g = [l] ∧ limit < (pyStrip l).length))
          groups (splitForEmbedsAux title footer limit rest (bufg.map addOf).flatten) := by
  intro rest
  induction rest with
  | nil =>
    intro bufg hinv
    by_cases hb : bufg = []
    · subst hb
      refine ⟨[], by simp, ?_⟩
      simp only [splitForEmbedsAux, List.map_nil, List.flatten_nil]
      rw [if_neg (by simp)]
      exact List.Forall₂.nil
    · have hbuf_ne : (bufg.map addOf).flatten ≠ [] := fun hh => hb (flatten_addOf_nil hh)
      refine ⟨[bufg], by simp, ?_⟩
      simp only [splitForEmbedsAux]
      rw [if_pos hbuf_ne]
      exact List.Forall₂.cons ⟨rfl, hb, chunk_disjunct hinv⟩ List.Forall₂.nil
  | cons line rest ih =>
    intro bufg hinv
    simp only [splitForEmbedsAux]
    by_cases hcond :
        ((bufg.map addOf).flatten).length + (addOf line).length > limit ∧
          (bufg.map addOf).flatten ≠ []
    · rw [if_pos hcond]
      have hb : bufg ≠ [] := fun hh => hcond.2 (by rw [hh]; rfl)
      have hfl : (([line] : List Str).map addOf).flatten = addOf line := by simp
      obtain ⟨groups, hjoin, hF⟩ := ih [line] (Or.inr ⟨line, rfl⟩)
      rw [hfl] at hF
      refine ⟨bufg :: groups, ?_, List.Forall₂.cons ⟨rfl, hb, chunk_disjunct hinv⟩ hF⟩
      rw [List.flatten_cons, hjoin]
      simp
    · rw [if_neg hcond]
      have hfl2 : ((bufg ++ [line]).map addOf).flatten =
          (bufg.map addOf).flatten ++ addOf line := by simp
      have hnewinv :
          (((bufg ++ [line]).map addOf).flatten.length ≤ limit ∨ ∃ l, bufg ++ [line] = [l]) := by
        rcases Decidable.not_and_iff_or_not.mp hcond with hnl | hne
        · left
          rw [hfl2, List.length_append]
          omega
        · right
          have : bufg = [] := flatten_addOf_nil (by
            by_contra hcontra
            exact hne hcontra)
          rw [this]
          exact ⟨line, rfl⟩
      obtain ⟨groups, hjoin, hF⟩ := ih (bufg ++ [line]) hnewinv
      rw [hfl2] at hF
      refine ⟨groups, ?_, hF⟩
      rw [hjoin]
      simp

/-- C4 (amended): the chunks of _split_for_embeds partition the input lines
into consecutive nonempty groups; each chunk's body is the group's stripped
lines joined by paragraph breaks (with the trailing break stripped), and
each body is at most `limit` characters long unless the group is exactly one
line whose stripped form alone exceeds `limit` — oversized lines are emitted
whole, never split.  Concatenating the groups in output order reproduces the
original lines, each line appearing stripped of surrounding whitespace
inside its chunk body. -/
theorem splitForEmbeds_chunk_contract (title footer : Str) (lines : List Str) (limit : Nat) :
    ∃ groups : List (List Str),
      groups.flatten = lines ∧
      List.Forall₂ (fun g ch =>
          ch.description = pyRstrip (g.map addOf).flatten ∧ g ≠ [] ∧
          (ch.description.length ≤ limit ∨ ∃ l, g = [l] ∧ limit < (pyStrip l).length))
        groups (splitForEmbeds title footer lines limit) := by
  have h := splitAux_spec title footer limit lines [] (Or.inl (by simp))
  simpa [splitForEmbeds] using h

/-- C4 (counterexample): a line carrying leading whitespace is stored
stripped in the chunk body, so concatenating the chunks' lines yields the
stripped line, not the original line. -/
theorem splitForEmbeds_strip_counterexample :
    (splitForEmbeds [] [] [" a".toList] 4000).map Chunk.description = ["a".toList] ∧
    (["a".toList] : List Str) ≠ [" a".toList] := by
  exact ⟨by decide, by decide⟩

/-! ## C5: fetch client retry policy -/

theorem httpGetTextAux_count_le (r : Nat → Option (Nat × Str)) :
    ∀ rem a, (httpGetTextAux r rem a).2 ≤ a + rem := by
  intro rem
  induction rem with
  | zero => intro a; simp [httpGetTextAux]
  | succ n ih =>
    intro a
    simp only [httpGetTextAux]
    split
    · have := ih (a + 1); omega
    · split
      · show a + 1 ≤ a + (n + 1); omega
      · split
        · have := ih (a + 1); omega
        · show a + 1 ≤ a + (n + 1); omega

theorem httpGetJsonAux_count_le {J : Type} (r : Nat → Option (Nat × Option J)) :
    ∀ rem a, (httpGetJsonAux r rem a).2 ≤ a + rem := by
  intro rem
  induction rem with
  | zero => intro a; simp [httpGetJsonAux]
  | succ n ih =>
    intro a
    simp only [httpGetJsonAux]
    split
    · have := ih (a + 1); omega
    · split
      · show a + 1 ≤ a + (n + 1); omega
      · split
        · have := ih (a + 1); omega
        · show a + 1 ≤ a + (n + 1); omega

theorem httpGetTextAux_retry_step {r : Nat → Option (Nat × Str)} {rem a s : Nat} {b : Str}
    (hr : r a = some (s, b)) (hs : textRetryable s = true) :
    httpGetTextAux r (rem + 1) a = httpGetTextAux r rem (a + 1) := by
  have hne : ¬ (s = 200) := by
    intro hcontra
    subst hcontra
    simp [textRetryable] at hs
  simp only [httpGetTextAux, hr]
  rw [if_neg hne, if_pos hs]

theorem httpGetTextAux_perm_step {r : Nat → Option (Nat × Str)} {rem a s : Nat} {b : Str}
    (hr : r a = some (s, b)) (h200 : ¬ s = 200) (hperm : textRetryable s = false) :
    httpGetTextAux r (rem + 1) a = ((s, b), a + 1) := by
  simp only [httpGetTextAux, hr]
  rw [if_neg h200, if_neg (by simp [hperm])]

theorem httpGetJsonAux_retry_step {J : Type} {r : Nat → Option (Nat × Option J)}
    {rem a s : Nat} {mj : Option J}
    (hr : r a = some (s, mj)) (hs : jsonRetryable s = true) :
    httpGetJsonAux r (rem + 1) a = httpGetJsonAux r rem (a + 1) := by
  have hne : ¬ (s = 200) := by
    intro hcontra
    subst hcontra
    simp [jsonRetryable] at hs
  simp only [httpGetJsonAux, hr]
  rw [if_neg hne, if_pos hs]

theorem httpGetJsonAux_perm_step {J : Type} {r : Nat → Option (Nat × Option J)}
    {rem a s : Nat} {mj : Option J}
    (hr : r a = some (s, mj)) (h200 : ¬ s = 200) (hperm : jsonRetryable s = false) :
    httpGetJsonAux r (rem + 1) a = ((s, none), a + 1) := by
  simp only [httpGetJsonAux, hr]
  rw [if_neg h200, if_neg (by simp [hperm])]

/-- C5: the fetch client makes at most 3 attempts and always returns a
status value instead of raising: three consecutive retryable responses
(403/503 for the text client, 429/500/502/503/504 for the JSON client)
exhaust exactly 3 attempts and yield the synthetic final value, while a
non-200 non-retryable status (such as 404) on the first attempt is returned
immediately after exactly 1 attempt. -/
theorem http_retry_policy :
    (∀ r : Nat → Option (Nat × Str), (httpGetText r).2 ≤ 3) ∧
    (∀ (J : Type) (r : Nat → Option (Nat × Option J)), (httpGetJson r).2 ≤ 3) ∧
    (∀ r : Nat → Option (Nat × Str),
      (∀ a, a < 3 → ∃ s b, r a = some (s, b) ∧ textRetryable s = true) →
        httpGetText r = ((403, "<blocked>".toList), 3)) ∧
    (∀ (J : Type) (r : Nat → Option (Nat × Option J)),
      (∀ a, a < 3 → ∃ s mj, r a = some (s, mj) ∧ jsonRetryable s = true) →
        httpGetJson r = ((503, none), 3)) ∧
    (∀ (r : Nat → Option (Nat × Str)) (s : Nat) (b : Str),
      r 0 = some (s, b) → ¬ s = 200 → textRetryable s = false →
        httpGetText r = ((s, b), 1)) ∧
    (∀ (J : Type) (r : Nat → Option (Nat × Option J)) (s : Nat) (mj : Option J),
      r 0 = some (s, mj) → ¬ s = 200 → jsonRetryable s = false →
        httpGetJson r = ((s, none), 1)) := by
  refine ⟨fun r => httpGetTextAux_count_le r 3 0, fun J r => httpGetJsonAux_count_le r 3 0,
    ?_, ?_, ?_, ?_⟩
  · intro r h
    obtain ⟨s0, b0, hr0, hs0⟩ := h 0 (by omega)
    obtain ⟨s1, b1, hr1, hs1⟩ := h 1 (by omega)
    obtain ⟨s2, b2, hr2, hs2⟩ := h 2 (by omega)
    rw [httpGetText, httpGetTextAux_retry_step hr0 hs0, httpGetTextAux_retry_step hr1 hs1,
      httpGetTextAux_retry_step hr2 hs2]
    rfl
  · intro J r h
    obtain ⟨s0, m0, hr0, hs0⟩ := h 0 (by omega)
    obtain ⟨s1, m1, hr1, hs1⟩ := h 1 (by omega)
    obtain ⟨s2, m2, hr2, hs2⟩ := h 2 (by omega)
    rw [httpGetJson, httpGetJsonAux_retry_step hr0 hs0, httpGetJsonAux_retry_step hr1 hs1,
      httpGetJsonAux_retry_step hr2 hs2]
    rfl
  · intro r s b hr h200 hperm
    rw [httpGetText, httpGetTextAux_perm_step hr h200 hperm]
  · intro J r s mj hr h200 hperm
    rw [httpGetJson, httpGetJsonAux_perm_step hr h200 hperm]

/-- C5 (witness): concrete oracles exercising every hypothesis of the retry
policy theorem: all-403 text, all-500 JSON, and 404 on the first attempt for
both clients. -/
theorem http_retry_policy_witness :
    httpGetText (fun _ => some (403, [])) = ((403, "<blocked>".toList), 3) ∧
    httpGetJson (fun _ => some (500, (none : Option Unit))) = ((503, none), 3) ∧
    httpGetText (fun _ => some (404, "nf".toList)) = ((404, "nf".toList), 1) ∧
    httpGetJson (fun _ => some (404, (none : Option Unit))) = ((404, none), 1) := by
  refine ⟨?_, ?_, ?_, ?_⟩
  · exact http_retry_policy.2.2.1 _ (fun a _ => ⟨403, [], rfl, rfl⟩)
  · exact http_retry_policy.2.2.2.1 Unit _ (fun a _ => ⟨500, none, rfl, rfl⟩)
  · exact http_retry_policy.2.2.2.2.1 _ 404 ("nf".toList) rfl (by omega) rfl
  · exact http_retry_policy.2.2.2.2.2 Unit _ 404 none rfl (by omega) rfl

/-! ## C7: TTL cache semantics -/

/-- C7: a get immediately (within the 300-second TTL) after a set returns
the stored value unchanged, and a get on an entry stored more than TTL
seconds ago returns none and removes the entry from the store (lazy
eviction on read). -/
theorem cache_ttl_semantics :
    (∀ (V : Type) (c : Cache V) (t now : Int) (k : Str) (v : V),
      now - t ≤ CACHE_TTL → (cacheGet (cacheSet c t k v) now k).1 = some v) ∧
    (∀ (V : Type) (c : Cache V) (t now : Int) (k : Str) (d : V),
      c k = some (t, d) → now - t > CACHE_TTL →
        (cacheGet c now k).1 = none ∧ (cacheGet c now k).2 k = none) := by
  constructor
  · intro V c t now k v h
    have hset : (cacheSet c t k v) k = some (t, v) := by simp [cacheSet]
    simp only [cacheGet, hset]
    rw [if_neg (by simp only [CACHE_TTL] at h ⊢; omega)]
  · intro V c t now k d hk h
    simp only [cacheGet, hk]
    rw [if_pos h]
    exact ⟨rfl, by simp⟩

/-- C7 (witness): concrete instances of both cache properties, with a value
stored at time 0 read back at the TTL boundary, and an entry aged 301
seconds evicted on read. -/
theorem cache_ttl_semantics_witness :
    (cacheGet (cacheSet (emptyCache (V := Str)) 0 ("k".toList) ("v".toList)) 300
      ("k".toList)).1 = some ("v".toList) ∧
    (cacheGet (cacheSet (emptyCache (V := Str)) 0 ("k".toList) ("v".toList)) 301
      ("k".toList)).1 = none ∧
    (cacheGet (cacheSet (emptyCache (V := Str)) 0 ("k".toList) ("v".toList)) 301
      ("k".toList)).2 ("k".toList) = none := by
  refine ⟨?_, ?_⟩
  · exact cache_ttl_semantics.1 Str emptyCache 0 300 ("k".toList) ("v".toList) (by decide)
  · exact cache_ttl_semantics.2 Str (cacheSet emptyCache 0 ("k".toList) ("v".toList)) 0 301
      ("k".toList) ("v".toList) (by simp [cacheSet]) (by decide)

/-! ## C3: the diacritic-aware highlighter -/

theorem stripHe_cons_dia {c : Char} (h : isHeDia c = true) (cs : Str) :
    stripHe (c :: cs) = stripHe cs := by
  simp [stripHe, List.filter_cons, h]

theorem stripHe_cons_keep {c : Char} (h : isHeDia c = false) (cs : Str) :
    stripHe (c :: cs) = c :: stripHe cs := by
  simp [stripHe, List.filter_cons, h]

theorem stripHe_append (x y : Str) : stripHe (x ++ y) = stripHe x ++ stripHe y := by
  simp [stripHe]

theorem stripWithMap_snd : ∀ (l : Str) (n : Nat),
    (stripWithMap l n).map Prod.snd = stripHe l := by
  intro l
  induction l with
  | nil => intro n; rfl
  | cons c cs ih =>
    intro n
    by_cases hd : isHeDia c = true
    · rw [stripWithMap, if_pos hd, stripHe_cons_dia hd, ih]
    · have hd' : isHeDia c = false := by simpa using hd
      rw [stripWithMap, if_neg (by simp [hd']), List.map_cons, stripHe_cons_keep hd', ih]

theorem stripWithMap_take : ∀ (l : Str) (n t p : Nat) (c : Char),
    (stripWithMap l n)[t]? = some (p, c) →
    n ≤ p ∧ p < n + l.length ∧
    stripHe (l.take (p - n)) = (stripHe l).take t ∧
    stripHe (l.take (p - n + 1)) = (stripHe l).take (t + 1) := by
  intro l
  induction l with
  | nil => intro n t p c h; simp [stripWithMap] at h
  | cons a cs ih =>
    intro n t p c h
    by_cases hd : isHeDia a = true
    · rw [stripWithMap, if_pos hd] at h
      obtain ⟨h1, h2, h3, h4⟩ := ih (n + 1) t p c h
      refine ⟨by omega, by simp only [List.length_cons]; omega, ?_, ?_⟩
      · rw [show p - n = (p - (n + 1)) + 1 by omega, List.take_succ_cons,
          stripHe_cons_dia hd, stripHe_cons_dia hd]
        exact h3
      · rw [show p - n + 1 = (p - (n + 1) + 1) + 1 by omega, List.take_succ_cons,
          stripHe_cons_dia hd, stripHe_cons_dia hd]
        exact h4
    · have hd' : isHeDia a = false := by simpa using hd
      rw [stripWithMap, if_neg (by simp [hd'])] at h
      cases t with
      | zero =>
        rw [List.getElem?_cons_zero] at h
        have h2 := Option.some.inj h
        have hpn : p = n := (congrArg Prod.fst h2).symm
        subst hpn
        refine ⟨le_refl _, by simp only [List.length_cons]; omega, by simp [stripHe], ?_⟩
        rw [Nat.sub_self, Nat.zero_add]
        rw [show (a :: cs).take 1 = [a] from rfl, stripHe_cons_keep hd' ([] : Str),
          stripHe_cons_keep hd' cs]
        simp [stripHe]
      | succ t' =>
        rw [List.getElem?_cons_succ] at h
        obtain ⟨h1, h2, h3, h4⟩ := ih (n + 1) t' p c h
        refine ⟨by omega, by simp only [List.length_cons]; omega, ?_, ?_⟩
        · rw [show p - n = (p - (n + 1)) + 1 by omega, List.take_succ_cons,
            stripHe_cons_keep hd', stripHe_cons_keep hd', List.take_succ_cons]
          rw [h3]
        · rw [show p - n + 1 = (p - (n + 1) + 1) + 1 by omega, List.take_succ_cons,
            stripHe_cons_keep hd', stripHe_cons_keep hd', List.take_succ_cons]
          rw [h4]

theorem isPrefixOf_true_iff : ∀ (l1 l2 : Str), l1.isPrefixOf l2 = true ↔ l1 <+: l2 := by
  intro l1
  induction l1 with
  | nil => intro l2; simp [List.isPrefixOf, List.nil_prefix]
  | cons a as ih =>
    intro l2
    cases l2 with
    | nil => simp [List.isPrefixOf]
    | cons b bs =>
      rw [List.isPrefixOf, List.cons_prefix_cons, Bool.and_eq_true, beq_iff_eq, ih]

theorem head?_mem {α : Type} {l : List α} {a : α} (h : l.head? = some a) : a ∈ l := by
  cases l with
  | nil => simp at h
  | cons x t =>
    simp only [List.head?_cons, Option.some.injEq] at h
    simp [h]

theorem findFrom_some {hs ns : Str} {start i : Nat} (h : findFrom hs ns start = some i) :
    start ≤ i ∧ ns <+: hs.drop i := by
  have hm := head?_mem h
  have := List.mem_filter.mp hm
  obtain ⟨-, hp⟩ := this
  rw [Bool.and_eq_true] at hp
  exact ⟨by simpa using hp.1, (isPrefixOf_true_iff _ _).mp hp.2⟩

theorem findFrom_complete {hs ns : Str} {start k : Nat}
    (hk : k ≤ hs.length) (hs1 : start ≤ k) (hocc : ns <+: hs.drop k) :
    ∃ i, findFrom hs ns start = some i := by
  have hmem : k ∈ (List.range (hs.length + 1)).filter
      (fun i => decide (start ≤ i) && ns.isPrefixOf (hs.drop i)) := by
    rw [List.mem_filter]
    refine ⟨List.mem_range.mpr (by omega), ?_⟩
    rw [Bool.and_eq_true]
    exact ⟨by simpa using hs1, (isPrefixOf_true_iff _ _).mpr hocc⟩
  cases hh : findFrom hs ns start with
  | some i => exact ⟨i, rfl⟩
  | none =>
    rw [findFrom, List.head?_eq_none_iff] at hh
    rw [hh] at hmem
    simp at hmem

theorem findAllAux_mem {hs ns : Str} :
    ∀ (fuel start i : Nat), i ∈ findAllAux hs ns fuel start → ns <+: hs.drop i := by
  intro fuel
  induction fuel with
  | zero => intro start i h; simp [findAllAux] at h
  | succ n ih =>
    intro start i h
    rw [findAllAux] at h
    cases hf : findFrom hs ns start with
    | none => rw [hf] at h; simp at h
    | some j =>
      rw [hf] at h
      rcases List.mem_cons.mp h with rfl | hmem
      · exact (findFrom_some hf).2
      · exact ih _ i hmem

theorem occ_bound {hs ns : Str} {i : Nat} (hne : ns ≠ []) (hocc : ns <+: hs.drop i) :
    i + ns.length ≤ hs.length := by
  have h1 : ns.length ≤ (hs.drop i).length := hocc.length_le
  rw [List.length_drop] at h1
  have h2 : 1 ≤ ns.length := List.length_pos.mpr hne
  omega

theorem map_fst_getD {km : List (Nat × Char)} {i p : Nat} {c : Char}
    (h : km[i]? = some (p, c)) : (km.map Prod.fst).getD i 0 = p := by
  rw [List.getD_eq_getD_get?, List.get?_eq_getElem?, List.getElem?_map, h]
  rfl

theorem stripHe_take_mono (l : Str) {p q : Nat} (h : p ≤ q) :
    (stripHe (l.take p)).length ≤ (stripHe (l.take q)).length := by
  have heq : l.take p = (l.take q).take p := by
    rw [List.take_take, Nat.min_eq_left h]
  rw [heq]
  have hpref := List.take_prefix p (l.take q)
  exact (hpref.filter _).length_le

/-- The span of one stripped-coordinate occurrence, translated to original
coordinates, strips back to the needle. -/
theorem highlight_span_strips {hay ns : Str} {i : Nat}
    (hne : ns ≠ []) (hocc : ns <+: (stripHe hay).drop i) :
    stripHe ((hay.drop (((stripWithMap hay 0).map Prod.fst).getD i 0)).take
        ((((stripWithMap hay 0).map Prod.fst).getD (i + ns.length - 1) 0 + 1) -
          (((stripWithMap hay 0).map Prod.fst).getD i 0))) = ns := by
  set km := stripWithMap hay 0 with hkm
  have hsnd : km.map Prod.snd = stripHe hay := stripWithMap_snd hay 0
  have hlen_km : km.length = (stripHe hay).length := by
    rw [← hsnd, List.length_map]
  have hbound : i + ns.length ≤ (stripHe hay).length := occ_bound hne hocc
  have hns1 : 1 ≤ ns.length := List.length_pos.mpr hne
  set j := i + ns.length - 1 with hj
  have hi_lt : i < km.length := by omega
  have hj_lt : j < km.length := by omega
  obtain ⟨pi, ci, hpi⟩ : ∃ p c, km[i]? = some (p, c) := by
    rw [List.getElem?_eq_getElem hi_lt]
    exact ⟨km[i].1, km[i].2, rfl⟩
  obtain ⟨pj, cj, hpj⟩ : ∃ p c, km[j]? = some (p, c) := by
    rw [List.getElem?_eq_getElem hj_lt]
    exact ⟨km[j].1, km[j].2, rfl⟩
  obtain ⟨-, -, hti, -⟩ := stripWithMap_take hay 0 i pi ci hpi
  obtain ⟨-, -, -, htj⟩ := stripWithMap_take hay 0 j pj cj hpj
  rw [Nat.sub_zero] at hti htj
  rw [map_fst_getD hpi, map_fst_getD hpj]
  have hij : i ≤ j := by omega
  have hpi_le : pi ≤ pj := by
    by_contra hcon
    have hlt : pj + 1 ≤ pi := by omega
    have hmono := stripHe_take_mono hay hlt
    rw [htj, hti] at hmono
    have hji : (stripHe hay).length ≥ j + 1 := by omega
    rw [List.length_take, List.length_take] at hmono
    omega
  have hsplit : hay.take (pj + 1) = hay.take pi ++ (hay.drop pi).take (pj + 1 - pi) := by
    rw [show pj + 1 = pi + (pj + 1 - pi) by omega]
    rw [List.take_add]
    congr 2
    omega
  have hstrips : (stripHe hay).take (j + 1) =
      (stripHe hay).take i ++ stripHe ((hay.drop pi).take (pj + 1 - pi)) := by
    rw [← htj, ← hti, hsplit, stripHe_append]
  have hdrop : stripHe ((hay.drop pi).take (pj + 1 - pi)) =
      ((stripHe hay).take (j + 1)).drop i := by
    rw [hstrips]
    rw [List.drop_left' (by rw [List.length_take]; omega)]
  rw [hdrop, List.drop_take]
  have hj1i : j + 1 - i = ns.length := by omega
  rw [hj1i]
  obtain ⟨tt, htt⟩ := hocc
  rw [← htt, List.take_left]

/-- C3: for a haystack containing Hebrew combining marks and a mark-free
nonempty needle whose stripped form occurs in the stripped projection of the
haystack, highlight_hebrew computes at least one emphasis span through the
index map, every computed span's original-text substring strips back to the
(stripped) needle, and the output is exactly the input with the emphasis
markers spliced around those spans. -/
theorem highlight_hebrew_marked (hay needle : Str)
    (hne : needle ≠ [])
    (hfree : stripHe needle = needle)
    (hmark : hay.any isHeDia = true)
    (hocc : needle <:+: stripHe hay) :
    highlightMatches hay needle ≠ [] ∧
    (∀ ab ∈ highlightMatches hay needle,
        stripHe ((hay.drop ab.1).take (ab.2 - ab.1)) = stripHe needle) ∧
    highlightHebrew hay needle = renderMatches hay (highlightMatches hay needle) 0 := by
  have hhay_ne : hay ≠ [] := by
    intro hh
    rw [hh] at hmark
    simp at hmark
  have hsnd : (stripWithMap hay 0).map Prod.snd = stripHe hay := stripWithMap_snd hay 0
  obtain ⟨pre, suf, hps⟩ := hocc
  have hocc0 : needle <+: (stripHe hay).drop pre.length := by
    rw [← hps, List.append_assoc, List.drop_left]
    exact ⟨suf, rfl⟩
  have hpre_le : pre.length ≤ (stripHe hay).length := by
    rw [← hps]
    simp only [List.length_append]
    omega
  obtain ⟨i0, hfind⟩ := findFrom_complete hpre_le (Nat.zero_le _) hocc0
  have hmatches_ne : highlightMatches hay needle ≠ [] := by
    simp only [highlightMatches, hsnd, hfree]
    rw [findAll, findAllAux, hfind]
    simp
  have hspans : ∀ ab ∈ highlightMatches hay needle,
      stripHe ((hay.drop ab.1).take (ab.2 - ab.1)) = stripHe needle := by
    intro ab hab
    simp only [highlightMatches, hsnd, hfree] at hab
    obtain ⟨i, hi_mem, rfl⟩ := List.mem_map.mp hab
    have hiocc : needle <+: (stripHe hay).drop i := findAllAux_mem _ _ i hi_mem
    rw [hfree]
    exact highlight_span_strips hne hiocc
  refine ⟨hmatches_ne, hspans, ?_⟩
  rw [highlightHebrew]
  rw [if_neg (by simp [hhay_ne, hne])]
  have hnfree : stripHe needle ≠ [] := by rw [hfree]; exact hne
  rw [if_neg hnfree, if_neg hmatches_ne]

/-- C3 (witness): a concrete pointed Hebrew haystack and a mark-free needle:
the needle occurs in the stripped haystack, a span is produced, and the
emphasized substring strips back to the needle. -/
theorem highlight_hebrew_marked_witness :
    highlightMatches "בְּרֵאשִׁית".toList "ברא".toList ≠ [] ∧
    (∀ ab ∈ highlightMatches "בְּרֵאשִׁית".toList "ברא".toList,
        stripHe (("בְּרֵאשִׁית".toList.drop ab.1).take (ab.2 - ab.1)) =
          stripHe "ברא".toList) ∧
    highlightHebrew "בְּרֵאשִׁית".toList "ברא".toList =
      renderMatches "בְּרֵאשִׁית".toList
        (highlightMatches "בְּרֵאשִׁית".toList "ברא".toList) 0 := by
  exact highlight_hebrew_marked _ _ (by decide) (by decide) (by decide) (by decide)


theorem metaFor_page (p l : Int) (n : Nat) (t : Option Int) (r : Option (Int × Int)) :
    (metaFor p l n t r).page = p := by
  cases r with
  | none => rfl
  | some ab => cases ab; rfl

theorem metaFor_limit (p l : Int) (n : Nat) (t : Option Int) (r : Option (Int × Int)) :
    (metaFor p l n t r).limit = l := by
  cases r with
  | none => rfl
  | some ab => cases ab; rfl

/-- C2 (counterexample): a provider payload with no range field, a
total-count field of 1 and two valid records makes the search return two
hits while the estimated range spans a single position, violating the
claimed invariant. -/
theorem search_meta_estimate_counterexample :
    (bibliaInfoSearchPhraseApi cxWorld emptyCache 0 0 "bw".toList "abc".toList 5 1).1 =
      Except.ok cxExpected ∧
    cxExpected.1.length = 2 ∧
    cxExpected.2.2.rstart = (1 - 1) * 5 + 1 ∧
    cxExpected.2.2.rend - cxExpected.2.2.rstart + 1 = 1 ∧
    cxExpected.2.2.rend - cxExpected.2.2.rstart + 1 ≠ (cxExpected.1.length : Int) := by
  refine ⟨rfl, rfl, by decide, by decide, by decide⟩

/-- C2 (amended): when the provider supplies no range field, the estimated
range satisfies rangeEnd - rangeStart + 1 = number of emitted hits with
rangeStart = (page - 1) * limit + 1, PROVIDED the provider total is absent,
zero, or at least (page - 1) * limit + hits; a truthy total below that
bound instead caps rangeEnd at the total, breaking the invariant. -/
theorem search_meta_estimated_range :
    (∀ (page limit : Int) (n : Nat) (tAll : Option Int),
        (tAll = none ∨ tAll = some 0 ∨
          ∃ t, tAll = some t ∧ (page - 1) * limit + (n : Int) ≤ t) →
        (metaFor page limit n tAll none).rstart = (page - 1) * limit + 1 ∧
        (metaFor page limit n tAll none).rend - (metaFor page limit n tAll none).rstart + 1 =
          (n : Int)) ∧
    (∀ (page limit : Int) (n : Nat) (t : Int),
        t ≠ 0 → t < (page - 1) * limit + (n : Int) →
        (metaFor page limit n (some t) none).rend = t) := by
  constructor
  · intro page limit n tAll h
    rcases h with h | h | ⟨t, ht, hle⟩
    · subst h; simp [metaFor]; omega
    · subst h
      simp [metaFor]
      omega
    · subst ht
      simp [metaFor]
      omega
  · intro page limit n t h0 hlt
    simp [metaFor]
    omega

theorem search_meta_estimated_range_witness :
    ((metaFor 2 10 3 none none).rstart = (2 - 1) * 10 + 1 ∧
      (metaFor 2 10 3 none none).rend - (metaFor 2 10 3 none none).rstart + 1 =
        ((3 : Nat) : Int)) ∧
    (metaFor 1 25 2 (some 1) none).rend = 1 :=
  ⟨search_meta_estimated_range.1 2 10 3 none (Or.inl rfl),
   search_meta_estimated_range.2 1 25 2 1 (by decide) (by decide)⟩

/-- C8: the stringified list "[&#123;'verse': 1, 'text': 'Foo'&#125;, ...]" coerces
to "Foo Bar"; the list branch joins the collected text values with single
spaces; and when literal parsing fails on a string containing "text" and a
bracket, the regex captures are joined the same way. -/
theorem coerce_text_serialized_list :
    coerceText (.jstr c8Str) = "Foo Bar".toList ∧
    (∀ (fuel : Nat) (items : List JVal),
        coerceTextBlock fuel (.jarr items) = joinSep " ".toList (coerceListParts items)) ∧
    (∀ s : Str,
        (hasSub s "text".toList && (s.elem '[' || s.elem '\x7b')) = true →
        pyLiteralEval s = none → textKeyAll s ≠ [] →
        coerceText (.jstr s) = joinSep " ".toList (textKeyAll s)) := by
  refine ⟨rfl, fun fuel items => by cases fuel <;> rfl, fun s h1 h2 h3 => ?_⟩
  simp only [coerceText, coerceTextBlock]
  rw [if_pos h1, h2, if_pos h3]

theorem coerce_text_serialized_list_witness :
    coerceText (.jstr c8Bad) = "Fooba".toList := by
  have h := coerce_text_serialized_list.2.2 c8Bad rfl rfl (by decide)
  rw [h]; rfl

theorem subCI_length_ge (w : Str) :
    ∀ (fuel : Nat) (s : Str), s.length ≤ (subCI w fuel s).length := by
  intro fuel
  induction fuel with
  | zero => intro s; exact Nat.le_refl _
  | succ f ih =>
    intro s
    simp only [subCI]
    split
    · have h1 := subCI w f (s.drop w.length) |>.length |> fun _ => ih (s.drop w.length)
      have h2 := ih (s.drop w.length)
      simp only [List.length_cons, List.length_append, List.length_take,
        List.length_drop] at h2 ⊢
      omega
    · cases s with
      | nil => exact Nat.le_refl _
      | cons c rest =>
        simp only [List.length_cons]
        exact Nat.succ_le_succ (ih rest)

theorem foldl_subCI_length_ge : ∀ (ws : List Str) (hay : Str),
    hay.length ≤ (ws.foldl (fun h w => subCI w (h.length + 1) h) hay).length := by
  intro ws
  induction ws with
  | nil => intro hay; exact Nat.le_refl _
  | cons w ws ih =>
    intro hay
    calc hay.length ≤ (subCI w (hay.length + 1) hay).length := subCI_length_ge w _ hay
    _ ≤ _ := ih _

theorem highlightCI_length_ge (hay needle : Str) :
    hay.length ≤ (highlightCI hay needle).length := by
  rw [highlightCI]
  split
  · exact Nat.le_refl _
  · exact foldl_subCI_length_ge _ hay

theorem isTexty_length {s : Str} (h : isTexty s = true) : 5 ≤ s.length := by
  simp only [isTexty, Bool.and_eq_true, decide_eq_true_eq] at h
  exact Nat.le_trans h.1 (pyStrip_length_le s)

theorem processRecord_some {r : JVal} {h : Hit}
    (hp : processRecord r = .ok (some h)) :
    (∃ b c v : Str, b ≠ [] ∧ c ≠ [] ∧ v ≠ [] ∧
      h.ref = b ++ ' ' :: c ++ ':' :: v) ∧
    isTexty h.snippet = true := by
  cases r with
  | jobj fs =>
    simp only [processRecord] at hp
    cases hb : bDispOf (.jobj fs) with
    | error e => simp [hb] at hp
    | ok bdisp =>
      simp only [hb] at hp
      split at hp
      · next hc =>
        obtain ⟨h1, h2, h3, h4⟩ := hc
        obtain rfl := Option.some.inj (Except.ok.inj hp)
        exact ⟨⟨bdisp, _, _, h1, h2, h3, rfl⟩, h4⟩
      · simp at hp
  | jnull => simp [processRecord] at hp
  | jbool b => simp [processRecord] at hp
  | jnum n => simp [processRecord] at hp
  | jstr s => simp [processRecord] at hp
  | jarr xs => simp [processRecord] at hp

theorem processSeq_mem : ∀ (seq : List JVal) (out : List Hit),
    processSeq seq = .ok out → ∀ h ∈ out,
    (∃ b c v : Str, b ≠ [] ∧ c ≠ [] ∧ v ≠ [] ∧
      h.ref = b ++ ' ' :: c ++ ':' :: v) ∧
    isTexty h.snippet = true := by
  intro seq
  induction seq with
  | nil =>
    intro out hout h hh
    simp only [processSeq, Except.ok.injEq] at hout
    subst hout
    exact absurd hh (by simp)
  | cons r rest ih =>
    intro out hout h hh
    cases hr : processRecord r with
    | error e => simp [processSeq, hr] at hout
    | ok o =>
      cases o with
      | none =>
        simp only [processSeq, hr] at hout
        exact ih out hout h hh
      | some h0 =>
        cases hrest : processSeq rest with
        | error e => simp [processSeq, hr, hrest] at hout
        | ok hs =>
          simp only [processSeq, hr, hrest, Except.ok.injEq] at hout
          subst hout
          rcases List.mem_cons.mp hh with rfl | hh2
          · exact processRecord_some hr
          · exact ih hs hrest h hh2

theorem searchGo_hits (world : Str → Nat → Option (Nat × Str)) (cache1 : Cache SearchVal)
    (tSet : Int) (ck spUrl phrase : Str) (page limit : Int) :
    ∀ (urls : List Str) (tAll : Option Int) (rng : Option (Int × Int))
      (lastSt : Option Nat) (lastBody : Str) (v : SearchVal) (cache' : Cache SearchVal),
      searchGo world cache1 tSet ck spUrl phrase page limit urls tAll rng lastSt lastBody =
        (.ok v, cache') →
      (∀ h ∈ v.1,
        (∃ b c vv : Str, b ≠ [] ∧ c ≠ [] ∧ vv ≠ [] ∧
          h.ref = b ++ ' ' :: c ++ ':' :: vv) ∧
        (∃ t : Str, isTexty t = true ∧ h.snippet = highlightCI t phrase)) ∧
      v.2.2.page = page ∧ v.2.2.limit = limit ∧
      cache' = cacheSet cache1 tSet ck v := by
  intro urls
  induction urls with
  | nil =>
    intro tAll rng lastSt lastBody v cache' heq
    simp [searchGo] at heq
  | cons url rest ih =>
    intro tAll rng lastSt lastBody v cache' heq
    simp only [searchGo] at heq
    split at heq
    · exact ih _ _ _ _ _ _ heq
    · cases hjp : jsonParse ((httpGetTextR (world url)).2) with
      | none =>
        simp only [hjp] at heq
        exact ih _ _ _ _ _ _ heq
      | some data =>
        simp only [hjp] at heq
        cases her : (match data with
            | JVal.jobj fs =>
              (extractRange fs rng).map (fun rr => (extractTotal fs tAll, rr))
            | _ => Except.ok (tAll, rng)) with
        | error e =>
          rw [her] at heq
          simp at heq
        | ok p =>
          obtain ⟨tA, rn⟩ := p
          rw [her] at heq
          cases hps : processSeq (selectSeq data) with
          | error e =>
            simp only [hps] at heq
            simp at heq
          | ok out =>
            simp only [hps] at heq
            by_cases hemp : out.isEmpty
            · rw [if_pos hemp] at heq
              exact ih _ _ _ _ _ _ heq
            · rw [if_neg hemp] at heq
              rw [Prod.mk.injEq] at heq
              obtain ⟨h1, h2⟩ := heq
              obtain rfl := Except.ok.inj h1
              refine ⟨?_, metaFor_page _ _ _ _ _, metaFor_limit _ _ _ _ _, h2.symm⟩
              intro h hh
              obtain ⟨h0, hh0, rfl⟩ := List.mem_map.mp hh
              obtain ⟨href, htex⟩ := processSeq_mem _ _ hps h0 hh0
              exact ⟨href, ⟨h0.snippet, htex, rfl⟩⟩

theorem searchGo_error_cache (world : Str → Nat → Option (Nat × Str))
    (cache1 : Cache SearchVal) (tSet : Int) (ck spUrl phrase : Str) (page limit : Int) :
    ∀ (urls : List Str) (tAll : Option Int) (rng : Option (Int × Int))
      (lastSt : Option Nat) (lastBody : Str) (e : PyErr) (cache' : Cache SearchVal),
      searchGo world cache1 tSet ck spUrl phrase page limit urls tAll rng lastSt lastBody =
        (.error e, cache') →
      cache' = cache1 := by
  intro urls
  induction urls with
  | nil =>
    intro tAll rng lastSt lastBody e cache' heq
    simp only [searchGo, Prod.mk.injEq] at heq
    exact heq.2.symm
  | cons url rest ih =>
    intro tAll rng lastSt lastBody e cache' heq
    simp only [searchGo] at heq
    split at heq
    · exact ih _ _ _ _ _ _ heq
    · cases hjp : jsonParse ((httpGetTextR (world url)).2) with
      | none =>
        simp only [hjp] at heq
        exact ih _ _ _ _ _ _ heq
      | some data =>
        simp only [hjp] at heq
        cases her : (match data with
            | JVal.jobj fs =>
              (extractRange fs rng).map (fun rr => (extractTotal fs tAll, rr))
            | _ => Except.ok (tAll, rng)) with
        | error e2 =>
          rw [her] at heq
          rw [Prod.mk.injEq] at heq
          exact heq.2.symm
        | ok p =>
          obtain ⟨tA, rn⟩ := p
          rw [her] at heq
          cases hps : processSeq (selectSeq data) with
          | error e2 =>
            simp only [hps, Prod.mk.injEq] at heq
            exact heq.2.symm
          | ok out =>
            simp only [hps] at heq
            by_cases hemp : out.isEmpty
            · rw [if_pos hemp] at heq
              exact ih _ _ _ _ _ _ heq
            · rw [if_neg hemp] at heq
              rw [Prod.mk.injEq] at heq
              exact absurd heq.1 (by simp)

/-- C6: on a cache miss, every hit returned by the phrase search has a
reference assembled from nonempty book, chapter and verse parts, and a
snippet that is the case-insensitive highlighting of a text that passed
_is_texty, hence of stripped length at least 5. -/
theorem search_hit_validity (world : Str → Nat → Option (Nat × Str))
    (cache : Cache SearchVal) (tGet tSet : Int) (trans phrase : Str)
    (limit page : Int) (v : SearchVal) (cache' : Cache SearchVal)
    (hmiss : (cacheGet cache tGet (cacheKeySearchApi trans (pyStrip phrase)
        (clampLimit limit) (clampPage page))).1 = none)
    (hok : bibliaInfoSearchPhraseApi world cache tGet tSet trans phrase limit page =
      (.ok v, cache')) :
    ∀ h ∈ v.1,
      (∃ b c vv : Str, b ≠ [] ∧ c ≠ [] ∧ vv ≠ [] ∧
        h.ref = b ++ ' ' :: c ++ ':' :: vv) ∧
      (∃ t : Str, isTexty t = true ∧ h.snippet = highlightCI t (pyStrip phrase) ∧
        5 ≤ h.snippet.length) := by
  simp only [bibliaInfoSearchPhraseApi] at hok
  cases hlc : lookupCode trans with
  | none => simp [hlc] at hok
  | some code =>
    simp only [hlc] at hok
    by_cases hph : pyStrip phrase = []
    · rw [if_pos hph] at hok
      simp at hok
    · rw [if_neg hph] at hok
      simp only [hmiss] at hok
      obtain ⟨hmem, _, _, _⟩ :=
        searchGo_hits world _ tSet _ _ (pyStrip phrase) (clampPage page) (clampLimit limit)
          _ none none none [] v cache' hok
      intro h hh
      obtain ⟨href, t, htex, hsnip⟩ := hmem h hh
      refine ⟨href, t, htex, hsnip, ?_⟩
      rw [hsnip]
      calc 5 ≤ t.length := isTexty_length htex
      _ ≤ _ := highlightCI_length_ge t (pyStrip phrase)

theorem search_hit_validity_witness :
    (∃ b c vv : Str, b ≠ [] ∧ c ≠ [] ∧ vv ≠ [] ∧
      (Hit.mk "RDZ 1:1".toList "Na poczatku swiat".toList).ref =
        b ++ ' ' :: c ++ ':' :: vv) ∧
    (∃ t : Str, isTexty t = true ∧
      (Hit.mk "RDZ 1:1".toList "Na poczatku swiat".toList).snippet =
        highlightCI t (pyStrip "abc".toList) ∧
      5 ≤ (Hit.mk "RDZ 1:1".toList "Na poczatku swiat".toList).snippet.length) :=
  search_hit_validity cxWorld emptyCache 0 0 "bw".toList "abc".toList 5 1 cxExpected _
    rfl rfl (Hit.mk "RDZ 1:1".toList "Na poczatku swiat".toList) (by decide)

theorem cacheGet_snd_sub {V : Type} (c : Cache V) (now : Int) (k : Str) :
    ∀ (k' : Str) (val : Int × V), (cacheGet c now k).2 k' = some val → c k' = some val := by
  intro k' val h
  unfold cacheGet at h
  cases hck : c k with
  | none => rw [hck] at h; exact h
  | some tv =>
    obtain ⟨t, d⟩ := tv
    simp only [hck] at h
    by_cases hexp : now - t > CACHE_TTL
    · rw [if_pos hexp] at h
      simp only at h
      by_cases hkk : k' = k
      · rw [if_pos hkk] at h
        exact absurd h (by simp)
      · rw [if_neg hkk] at h
        exact h
    · rw [if_neg hexp] at h
      exact h

theorem passageGo_error_cache (h2t clean : Str → Str)
    (world : Str → Nat → Option (Nat × Str)) (cache1 : Cache Str) (tSet : Int)
    (key code ch vs : Str) :
    ∀ (slugs : List Str) (lastSt : Option Nat) (lastSnip : Str) (e : PyErr)
      (cache' : Cache Str),
      passageGo h2t clean world cache1 tSet key code ch vs slugs lastSt lastSnip =
        (.error e, cache') →
      cache' = cache1 := by
  intro slugs
  induction slugs with
  | nil =>
    intro lastSt lastSnip e cache' heq
    simp only [passageGo, Prod.mk.injEq] at heq
    exact heq.2.symm
  | cons slug rest ih =>
    intro lastSt lastSnip e cache' heq
    simp only [passageGo] at heq
    split at heq
    · split at heq
      · rw [Prod.mk.injEq] at heq
        exact absurd heq.1 (by simp)
      · exact ih _ _ _ _ heq
    · exact ih _ _ _ _ heq

theorem passageGo_all_fail (h2t clean : Str → Str)
    (world : Str → Nat → Option (Nat × Str)) (cache1 : Cache Str) (tSet : Int)
    (key code ch vs : Str) :
    ∀ (slugs : List Str) (lastSt : Option Nat) (lastSnip : Str),
      (∀ slug ∈ slugs,
        ¬ ((httpGetTextR (world (passageUrl code slug ch vs))).1 = 200 ∧
           pyStrip (httpGetTextR (world (passageUrl code slug ch vs))).2 ≠ [] ∧
           h2t (httpGetTextR (world (passageUrl code slug ch vs))).2 ≠ [])) →
      ∃ e, passageGo h2t clean world cache1 tSet key code ch vs slugs lastSt lastSnip =
        (.error e, cache1) := by
  intro slugs
  induction slugs with
  | nil =>
    intro lastSt lastSnip _
    exact ⟨.runtimeError lastSt lastSnip, rfl⟩
  | cons slug rest ih =>
    intro lastSt lastSnip hall
    have hfail := hall slug (List.mem_cons_self _ _)
    simp only [passageGo]
    by_cases hc1 : (httpGetTextR (world (passageUrl code slug ch vs))).1 = 200 ∧
        pyStrip (httpGetTextR (world (passageUrl code slug ch vs))).2 ≠ []
    · rw [if_pos hc1]
      have hc2 : ¬ h2t ((httpGetTextR (world (passageUrl code slug ch vs))).2) ≠ [] :=
        fun hne => hfail ⟨hc1.1, hc1.2, hne⟩
      rw [if_neg hc2]
      exact ih _ _ (fun s hs => hall s (List.mem_cons_of_mem _ hs))
    · rw [if_neg hc1]
      exact ih _ _ (fun s hs => hall s (List.mem_cons_of_mem _ hs))

/-- C9: the passage lookup caches only successes.  First: when the key is
not successfully cached and every slug attempt fails (non-200 status, blank
body, or empty extracted text), the lookup raises.  Second: whenever the
lookup raises, the returned cache holds no entry that the input cache did
not already hold - no failure or placeholder is ever stored. -/
theorem passage_cache_only_on_success :
    (∀ (h2t clean : Str → Str) (world : Str → Nat → Option (Nat × Str))
        (cache : Cache Str) (tGet tSet : Int) (trans ref code book ch vs : Str),
        lookupCode trans = some code →
        parseRef ref = some (book, ch, vs) →
        (∀ s, (cacheGet cache tGet (passageKey trans book ch vs)).1 = some s → s = []) →
        (∀ slug ∈ slugTry book,
          ¬ ((httpGetTextR (world (passageUrl code slug ch vs))).1 = 200 ∧
             pyStrip (httpGetTextR (world (passageUrl code slug ch vs))).2 ≠ [] ∧
             h2t (httpGetTextR (world (passageUrl code slug ch vs))).2 ≠ [])) →
        ∃ e, (bibliaInfoGetPassage h2t clean world cache tGet tSet trans ref).1 =
          .error e) ∧
    (∀ (h2t clean : Str → Str) (world : Str → Nat → Option (Nat × Str))
        (cache : Cache Str) (tGet tSet : Int) (trans ref : Str) (e : PyErr)
        (res : Cache Str),
        bibliaInfoGetPassage h2t clean world cache tGet tSet trans ref = (.error e, res) →
        ∀ k val, res k = some val → cache k = some val) := by
  constructor
  · intro h2t clean world cache tGet tSet trans ref code book ch vs hlc hpr hemp hall
    simp only [bibliaInfoGetPassage, hlc, hpr]
    cases hgc : (cacheGet cache tGet (passageKey trans book ch vs)).1 with
    | some s =>
      have hs := hemp s hgc
      subst hs
      dsimp only
      rw [if_neg (by simp)]
      obtain ⟨e, he⟩ := passageGo_all_fail h2t clean world _ tSet _ code ch vs
        (slugTry book) none [] hall
      exact ⟨e, by rw [he]⟩
    | none =>
      dsimp only
      obtain ⟨e, he⟩ := passageGo_all_fail h2t clean world _ tSet _ code ch vs
        (slugTry book) none [] hall
      exact ⟨e, by rw [he]⟩
  · intro h2t clean world cache tGet tSet trans ref e res heq k val hres
    simp only [bibliaInfoGetPassage] at heq
    cases hlc : lookupCode trans with
    | none =>
      simp only [hlc, Prod.mk.injEq] at heq
      rw [heq.2]; exact hres
    | some code =>
      simp only [hlc] at heq
      cases hpr : parseRef ref with
      | none =>
        simp only [hpr, Prod.mk.injEq] at heq
        rw [heq.2]; exact hres
      | some bcv =>
        obtain ⟨book, ch, vs⟩ := bcv
        simp only [hpr] at heq
        cases hgc : (cacheGet cache tGet (passageKey trans book ch vs)).1 with
        | some s =>
          simp only [hgc] at heq
          by_cases hs : s ≠ []
          · rw [if_pos hs] at heq
            rw [Prod.mk.injEq] at heq
            exact absurd heq.1 (by simp)
          · rw [if_neg hs] at heq
            have hc1 := passageGo_error_cache h2t clean world _ tSet _ code ch vs _ _ _ _ _ heq
            rw [hc1] at hres
            exact cacheGet_snd_sub cache tGet _ k val hres
        | none =>
          simp only [hgc] at heq
          have hc1 := passageGo_error_cache h2t clean world _ tSet _ code ch vs _ _ _ _ _ heq
          rw [hc1] at hres
          exact cacheGet_snd_sub cache tGet _ k val hres

theorem passage_cache_only_on_success_witness :
    (∃ e, (bibliaInfoGetPassage (fun s => s) (fun s => s)
        (fun _ _ => some (404, "x".toList)) emptyCache 0 0 "bw".toList
        "Rdz 1:1".toList).1 = .error e) ∧
    (∀ (k : Str) (val : Int × Str), (emptyCache : Cache Str) k = some val →
      emptyCache k = some val) :=
  ⟨passage_cache_only_on_success.1 (fun s => s) (fun s => s) _ emptyCache 0 0 "bw".toList
      "Rdz 1:1".toList "bw".toList "Rdz".toList "1".toList "1".toList rfl rfl
      (fun s hs => Option.noConfusion hs) (by decide),
   passage_cache_only_on_success.2 (fun s => s) (fun s => s)
      (fun _ _ => some (404, "x".toList)) emptyCache 0 0 "bw".toList "Rdz 1:1".toList
      (.runtimeError (some 404) "x".toList) emptyCache rfl⟩

theorem clampPage_idem (p : Int) : clampPage (clampPage p) = clampPage p := by
  unfold clampPage
  omega

theorem clampLimit_idem (l : Int) : clampLimit (clampLimit l) = clampLimit l := by
  unfold clampLimit
  omega

/-- C10: both public searches clamp rather than reject: clampPage is
max 1 and clampLimit forces 1..25; each search returns the same result when
fed the clamped arguments (the raw values matter only through the clamps);
and on a cache miss the meta carries the clamped page and limit while the
result is stored under the cache key built from them. -/
theorem pagination_clamping :
    (∀ p : Int, clampPage p = max 1 p) ∧
    (∀ l : Int, 1 ≤ clampLimit l ∧ clampLimit l ≤ 25 ∧
      (25 < l → clampLimit l = 25) ∧ (l < 1 → clampLimit l = 1) ∧
      (1 ≤ l → l ≤ 25 → clampLimit l = l)) ∧
    (∀ (world : Str → Nat → Option (Nat × Str)) (cache : Cache SearchVal)
        (tGet tSet : Int) (trans phrase : Str) (limit page : Int),
      bibliaInfoSearchPhraseApi world cache tGet tSet trans phrase limit page =
        bibliaInfoSearchPhraseApi world cache tGet tSet trans phrase
          (clampLimit limit) (clampPage page)) ∧
    (∀ (worldJ : Str → Nat → Option (Nat × Option JVal)) (query : Str)
        (page pp : Int),
      apiBibleSearchHebrew worldJ query page pp =
        apiBibleSearchHebrew worldJ query (clampPage page) (clampLimit pp)) ∧
    (∀ (world : Str → Nat → Option (Nat × Str)) (cache : Cache SearchVal)
        (tGet tSet : Int) (trans phrase : Str) (limit page : Int)
        (v : SearchVal) (cache' : Cache SearchVal),
      (cacheGet cache tGet (cacheKeySearchApi trans (pyStrip phrase)
          (clampLimit limit) (clampPage page))).1 = none →
      bibliaInfoSearchPhraseApi world cache tGet tSet trans phrase limit page =
        (.ok v, cache') →
      v.2.2.page = clampPage page ∧ v.2.2.limit = clampLimit limit ∧
      cache' = cacheSet (cacheGet cache tGet (cacheKeySearchApi trans (pyStrip phrase)
          (clampLimit limit) (clampPage page))).2 tSet
        (cacheKeySearchApi trans (pyStrip phrase) (clampLimit limit) (clampPage page)) v) := by
  refine ⟨fun p => rfl, fun l => by unfold clampLimit; omega, ?_, ?_, ?_⟩
  · intro world cache tGet tSet trans phrase limit page
    simp only [bibliaInfoSearchPhraseApi, clampPage_idem, clampLimit_idem]
  · intro worldJ query page pp
    simp only [apiBibleSearchHebrew, clampPage_idem, clampLimit_idem]
  · intro world cache tGet tSet trans phrase limit page v cache' hmiss hok
    simp only [bibliaInfoSearchPhraseApi] at hok
    cases hlc : lookupCode trans with
    | none => simp [hlc] at hok
    | some code =>
      simp only [hlc] at hok
      by_cases hph : pyStrip phrase = []
      · rw [if_pos hph] at hok
        simp at hok
      · rw [if_neg hph] at hok
        simp only [hmiss] at hok
        obtain ⟨_, hpae, hlim, hcache⟩ :=
          searchGo_hits world _ tSet _ _ (pyStrip phrase) (clampPage page)
            (clampLimit limit) _ none none none [] v cache' hok
        exact ⟨hpae, hlim, hcache⟩

theorem pagination_clamping_witness :
    clampPage 0 = max 1 0 ∧
    clampLimit 99 = 25 ∧
    clampLimit 0 = 1 ∧
    (bibliaInfoSearchPhraseApi cxWorld emptyCache 0 0 "bw".toList "abc".toList 5 1 =
      bibliaInfoSearchPhraseApi cxWorld emptyCache 0 0 "bw".toList "abc".toList
        (clampLimit 5) (clampPage 1)) ∧
    cxExpected.2.2.page = clampPage 1 ∧
    cxExpected.2.2.limit = clampLimit 5 :=
  ⟨pagination_clamping.1 0,
   (pagination_clamping.2.1 99).2.2.1 (by decide),
   (pagination_clamping.2.1 0).2.2.2.1 (by decide),
   pagination_clamping.2.2.1 cxWorld emptyCache 0 0 "bw".toList "abc".toList 5 1,
   (pagination_clamping.2.2.2.2 cxWorld emptyCache 0 0 "bw".toList "abc".toList 5 1
      cxExpected _ rfl rfl).1,
   (pagination_clamping.2.2.2.2 cxWorld emptyCache 0 0 "bw".toList "abc".toList 5 1
      cxExpected _ rfl rfl).2.1⟩

end BibleBot
